import Mathlib

/-!
# Verification of the lead-to-revenue tracker core

A shallow embedding, in Lean 4, of the core logic of the lead-to-revenue
tracker repository: the name-reconciliation engine (`findLeadByName` /
`fuzzySearchLeads` in `src/lib/airtable.js`), the monthly rollup aggregator
(`aggregateRevenueBySource`, `createMonthlySummary`,
`updateMonthlySummaryWithPayment` in `src/lib/airtable.js`, plus the
scheduled ad-spend refresh in `netlify/functions/update-ad-spend-v3.js` and
`update-ad-spend-v2.js`), the lead upsert (`upsertLead`), and the expense
fetch error handling (`getMonthlyExpenses` in `src/lib/quickbooks.js`).

Modelling conventions:
- JavaScript numbers are modelled as rationals (`ℚ`); record amounts in the
  source are ordinary JS numbers and no claim under verification depends on
  binary floating-point rounding.
- Airtable record field access `fields[k]` that may be `undefined` is
  modelled with `Option`; the JS idiom `x || 0` becomes `orZero`, and the
  truthiness test on a string field (`undefined` and `""` are falsy) becomes
  `truthyStr`.
- JavaScript objects used as string-keyed maps (`aggregation`,
  `revenueBySource`, `existingByLeadSource`, `adSpendByCategory`) are
  modelled as association lists in key-insertion order: assigning to an
  existing key replaces its value in place, a new key is appended, which is
  exactly the enumeration order `Object.entries` exposes.
- Asynchronous store/API calls are modelled by passing the store contents
  (or an `Except` for a call that can fail) as an explicit argument, and
  the functions under test are instrumented to report how many store
  queries they issued and whether the fuzzy scorer ran.
-/

namespace LeadTracker

/-- JS `x || 0` on a possibly-undefined numeric field. -/
def orZero : Option ℚ → ℚ
  | none => 0
  | some a => a

/-- JS truthiness of a possibly-undefined string field: `undefined` and the
empty string are falsy. -/
def truthyStr : Option String → Bool
  | none => false
  | some s => s ≠ ""

/-- `String(n).padStart(2, "0")` for a month number. -/
def pad2 (n : Nat) : String :=
  if n < 10 then "0" ++ toString n else toString n

/-- Does the character list `needle` occur contiguously inside `hay`? -/
def subChars (needle : List Char) : List Char → Bool
  | [] => needle.isEmpty
  | c :: tl => needle.isPrefixOf (c :: tl) || subChars needle tl

/-! ## Name reconciliation engine (`src/lib/airtable.js`)

`findLeadByName(customerName, threshold)` first issues the Airtable query
`SEARCH("<customerName.toLowerCase()>", LOWER({Customer Name})) > 0` with
`maxRecords: 10`; if it returns records, the first one is returned.
Otherwise `fuzzySearchLeads` fetches up to 1000 leads and runs Fuse.js with
`threshold: 1 - threshold` and `includeScore: true`, accepting
`results[0]` when `results[0].score <= 1 - threshold`.
-/

/-- A row of the Leads table as the reconciliation engine sees it:
the Airtable record id and the `Customer Name` field. -/
structure LeadRow where
  rid : String
  name : String
deriving Repr, DecidableEq

/-- Character-wise lowercasing (`toLowerCase()` / Airtable `LOWER()`). -/
def lowerChars (cs : List Char) : List Char :=
  cs.map Char.toLower

/-- Airtable's `SEARCH(needle, LOWER({Customer Name})) > 0` predicate for a
needle that the caller has already lowercased: a case-insensitive
substring test. -/
def searchLowerFound (customerName fieldVal : String) : Bool :=
  subChars (lowerChars customerName.data) (lowerChars fieldVal.data)

/-- The exact-match store query of `findLeadByName`: the filtered rows in
store order, capped at `maxRecords: 10`. -/
def exactNameQuery (store : List LeadRow) (customerName : String) : List LeadRow :=
  (store.filter fun r => searchLowerFound customerName r.name).take 10

/-- Fuse.js `fuse.search(pattern)` over items scored by `scorer`
(the Fuse score: 0 is identical, 1 is no similarity): results are the
items whose score passes the configured threshold, sorted by ascending
score. `scorer` is a parameter because Fuse's internal bitap scorer is an
external library; all claims under verification quantify over it. -/
def fuseSearch (scorer : String → String → ℚ) (pattern : String)
    (items : List LeadRow) (fuseThreshold : ℚ) : List (LeadRow × ℚ) :=
  ((items.map fun l => (l, scorer pattern l.name)).filter
      fun p => p.2 ≤ fuseThreshold).mergeSort
    fun a b => decide (a.2 ≤ b.2)

/-- `fuzzySearchLeads(customerName, threshold)`: fetch up to 1000 leads,
run Fuse with threshold `1 - threshold`, and return the top result when
`results[0].score <= 1 - threshold`, else `null`. -/
def fuzzySearchLeads (scorer : String → String → ℚ) (store : List LeadRow)
    (customerName : String) (threshold : ℚ) : Option LeadRow :=
  let allRecords := store.take 1000
  let results := fuseSearch scorer customerName allRecords (1 - threshold)
  match results with
  | [] => none
  | r :: _ => if r.2 ≤ 1 - threshold then some r.1 else none

/-- Outcome of `findLeadByName`: a returned value, or a thrown exception
(the `catch` block rethrows). -/
inductive FindOutcome where
  | ok (res : Option LeadRow)
  | err
deriving Repr, DecidableEq

/-- Instrumented result of `findLeadByName`: the outcome, the number of
store queries issued, and whether the fuzzy path ran. -/
structure FindTrace where
  outcome : FindOutcome
  storeQueries : Nat
  fuzzyInvoked : Bool
deriving Repr, DecidableEq

/-- `findLeadByName(customerName, threshold)`. A `null`/`undefined`
`customerName` makes `customerName.toLowerCase()` throw a `TypeError`
before any store call, which the `catch` block rethrows. Otherwise the
exact query is issued (one store query); on a hit the first record is
returned, otherwise `fuzzySearchLeads` runs (a second store query). -/
def findLeadByName (scorer : String → String → ℚ) (store : List LeadRow)
    (customerName : Option String) (threshold : ℚ) : FindTrace :=
  match customerName with
  | none => ⟨.err, 0, false⟩
  | some nm =>
    match exactNameQuery store nm with
    | [] => ⟨.ok (fuzzySearchLeads scorer store nm threshold), 2, true⟩
    | r :: _ => ⟨.ok (some r), 1, false⟩

/-- A one-record store used to instantiate theorems at concrete inputs. -/
def janeStore : List LeadRow := [⟨"recJane", "Jane Doe"⟩]

/-- A trivial stand-in scorer used only to instantiate theorems whose
statements quantify over the scorer. -/
def zeroScorer : String → String → ℚ := fun _ _ => 0

/-! ## String-keyed JS objects as association lists

JS object assignment `m[k] = v` replaces the value of an existing key in
place (keys are unique in a JS object, so replacing the first occurrence
is exact) and appends a new key; `Object.entries` then enumerates in this
insertion order. -/

/-- JS object assignment `m[k] = v`. -/
def setEntry {β : Type} : List (String × β) → String → β → List (String × β)
  | [], k, v => [(k, v)]
  | p :: tl, k, v => if p.1 == k then (k, v) :: tl else p :: setEntry tl k v

/-- JS object read `m[k]` (`undefined` when the key is absent). -/
def getEntry {β : Type} : List (String × β) → String → Option β
  | [], _ => none
  | p :: tl, k => if p.1 == k then some p.2 else getEntry tl k

/-! ## Monthly rollup aggregator (`src/lib/airtable.js`, `index.js`)

`aggregateRevenueBySource(leads)` folds over the paid leads building
`aggregation[source] = {totalRevenue, customerCount, averageRevenue}`,
recomputing `averageRevenue = totalRevenue / customerCount` on every step.
`generateMonthlySummary` (in `index.js`) computes `totalRevenue` as
`leads.reduce((sum, lead) => sum + (parseFloat(...) || 0), 0)`.
-/

/-- A paid lead as the aggregator sees it: `Lead Source` and
`Payment Amount` fields (either possibly absent). `parseFloat` of a stored
numeric value is abstracted to the value itself; a non-numeric value would
behave like an absent one (`|| 0`). -/
structure PaidLead where
  rid : String
  leadSource : Option String
  paymentAmount : Option ℚ
deriving Repr, DecidableEq

/-- `lead.fields['Lead Source'] || 'Unknown'` (`undefined` and `""` are
falsy). -/
def leadSourceOf (l : PaidLead) : String :=
  match l.leadSource with
  | none => "Unknown"
  | some s => if s = "" then "Unknown" else s

/-- `parseFloat(lead.fields['Payment Amount']) || 0`. -/
def amountOf (l : PaidLead) : ℚ := orZero l.paymentAmount

/-- One entry of `aggregation` / `revenueBySource`. -/
structure SourceAgg where
  totalRevenue : ℚ
  customerCount : ℚ
  averageRevenue : ℚ
deriving Repr, DecidableEq

/-- One iteration of the `leads.forEach` body of
`aggregateRevenueBySource`. -/
def aggStep (acc : List (String × SourceAgg)) (lead : PaidLead) :
    List (String × SourceAgg) :=
  let source := leadSourceOf lead
  let amount := amountOf lead
  let cur := (getEntry acc source).getD ⟨0, 0, 0⟩
  let total := cur.totalRevenue + amount
  let count := cur.customerCount + 1
  setEntry acc source ⟨total, count, total / count⟩

/-- `aggregateRevenueBySource(leads)`. -/
def aggregateRevenueBySource (leads : List PaidLead) :
    List (String × SourceAgg) :=
  leads.foldl aggStep []

/-- The leads attributed to source `s`. -/
def sourceLeads (leads : List PaidLead) (s : String) : List PaidLead :=
  leads.filter fun l => leadSourceOf l == s

/-- Sum of the payment amounts of a list of leads. -/
def sumAmounts (leads : List PaidLead) : ℚ := (leads.map amountOf).sum

/-- `index.js` `generateMonthlySummary`: overall
`totalRevenue = leads.reduce((sum, lead) => sum + amount, 0)`. -/
def totalRevenueOfLeads (leads : List PaidLead) : ℚ :=
  leads.foldl (fun sum l => sum + amountOf l) 0

/-- Expected value of `aggregation[s]` after processing `leads`. -/
def aggSpec (leads : List PaidLead) (s : String) : Option SourceAgg :=
  if (sourceLeads leads s).length = 0 then none
  else some ⟨sumAmounts (sourceLeads leads s),
    ((sourceLeads leads s).length : ℚ),
    sumAmounts (sourceLeads leads s) / ((sourceLeads leads s).length : ℚ)⟩

/-! ### Monthly summary writes -/

/-- The `ROI` field: the literal `"N/A"` or a percentage (the
`toFixed(2) + "%"` string formatting is abstracted to the exact
percentage). -/
inductive RoiField where
  | na
  | pct (value : ℚ)
deriving Repr, DecidableEq

/-- The fields of an existing `Monthly Summary` record that the update
paths read (each possibly absent; the record's `Revenue by Source` JSON
round-trip through `JSON.stringify`/`JSON.parse` is abstracted to the map
itself). -/
structure SummaryFields where
  totalRevenue : Option ℚ
  customerCount : Option ℚ
  totalAdSpend : Option ℚ
  totalPromoSpend : Option ℚ
  revenueBySource : List (String × SourceAgg)
deriving Repr, DecidableEq

/-- Input of `createMonthlySummary(summaryData)`. -/
structure SummaryInput where
  month : Nat
  year : Nat
  totalRevenue : ℚ
  totalAdSpend : ℚ
  totalPromoSpend : ℚ
  customerCount : ℚ
  averageRevenuePerCustomer : ℚ
  revenueBySource : List (String × SourceAgg)
deriving Repr, DecidableEq

/-- The record fields written by `createMonthlySummary`. -/
structure SummaryRecordData where
  period : String
  totalRevenue : ℚ
  totalAdSpend : ℚ
  totalPromoSpend : ℚ
  netRevenue : ℚ
  customerCount : ℚ
  averageRevenuePerCustomer : ℚ
  revenueBySource : List (String × SourceAgg)
  roi : RoiField
deriving Repr, DecidableEq

/-- `createMonthlySummary(summaryData)`: the record data it writes
(whether it then creates or updates the period's record). -/
def createMonthlySummary (d : SummaryInput) : SummaryRecordData :=
  { period := toString d.year ++ "-" ++ pad2 d.month
    totalRevenue := d.totalRevenue
    totalAdSpend := d.totalAdSpend
    totalPromoSpend := d.totalPromoSpend
    netRevenue := d.totalRevenue - d.totalAdSpend - d.totalPromoSpend
    customerCount := d.customerCount
    averageRevenuePerCustomer := d.averageRevenuePerCustomer
    revenueBySource := d.revenueBySource
    roi := if 0 < d.totalAdSpend then
        RoiField.pct ((d.totalRevenue - d.totalAdSpend) / d.totalAdSpend * 100)
      else RoiField.na }

/-- Input of `updateMonthlySummaryWithPayment(paymentInfo)`. -/
structure PaymentInfo where
  month : Nat
  year : Nat
  leadSource : String
  paymentAmount : ℚ
deriving Repr, DecidableEq

/-- The fields written by `updateMonthlySummaryWithPayment` (either
branch). -/
structure PaymentFoldWrite where
  totalRevenue : ℚ
  customerCount : ℚ
  averageRevenuePerCustomer : ℚ
  revenueBySource : List (String × SourceAgg)
  netRevenue : ℚ
  roi : RoiField
deriving Repr, DecidableEq

/-- `updateMonthlySummaryWithPayment(paymentInfo)`: the incremental fold
of one payment into the period's summary. `existing` is the record found
by the `{Period} = ...` query (`none` when absent, in which case the
create branch runs with its literal initial values). -/
def updateMonthlySummaryWithPayment (existing : Option SummaryFields)
    (p : PaymentInfo) : PaymentFoldWrite :=
  match existing with
  | some cur =>
    let cur0 := (getEntry cur.revenueBySource p.leadSource).getD ⟨0, 0, 0⟩
    let total := cur0.totalRevenue + p.paymentAmount
    let count := cur0.customerCount + 1
    let rbs := setEntry cur.revenueBySource p.leadSource
      ⟨total, count, total / count⟩
    let newTotalRevenue := orZero cur.totalRevenue + p.paymentAmount
    let newCustomerCount := orZero cur.customerCount + 1
    let totalAdSpend := orZero cur.totalAdSpend
    { totalRevenue := newTotalRevenue
      customerCount := newCustomerCount
      averageRevenuePerCustomer := newTotalRevenue / newCustomerCount
      revenueBySource := rbs
      netRevenue := newTotalRevenue - totalAdSpend - orZero cur.totalPromoSpend
      roi := if 0 < totalAdSpend then
          RoiField.pct ((newTotalRevenue - totalAdSpend) / totalAdSpend * 100)
        else RoiField.na }
  | none =>
    { totalRevenue := p.paymentAmount
      customerCount := 1
      averageRevenuePerCustomer := p.paymentAmount
      revenueBySource := [(p.leadSource,
        ⟨p.paymentAmount, 1, p.paymentAmount⟩)]
      netRevenue := p.paymentAmount
      roi := RoiField.na }

/-- The fields written by the `update-ad-spend-v2.js` handler. -/
structure V2Write where
  totalAdSpend : ℚ
  netRevenue : ℚ
  roi : RoiField
deriving Repr, DecidableEq

/-- `update-ad-spend-v2.js`, existing-record branch (lines 100-119):
replace `Total Ad Spend`, recompute `Net Revenue` and `ROI` from the
record's current revenue figures. -/
def updateAdSpendV2Existing (cur : SummaryFields) (totalAdSpendNew : ℚ) :
    V2Write :=
  let totalRevenue := orZero cur.totalRevenue
  let totalPromoSpend := orZero cur.totalPromoSpend
  { totalAdSpend := totalAdSpendNew
    netRevenue := totalRevenue - totalAdSpendNew - totalPromoSpend
    roi := if 0 < totalAdSpendNew then
        RoiField.pct ((totalRevenue - totalAdSpendNew) / totalAdSpendNew * 100)
      else RoiField.na }

/-- `update-ad-spend-v2.js`, create branch (lines 76-98): a fresh record
with zero revenue and the literal `ROI: "N/A"`. -/
def updateAdSpendV2Create (totalAdSpendNew : ℚ) : V2Write :=
  { totalAdSpend := totalAdSpendNew
    netRevenue := 0 - totalAdSpendNew
    roi := RoiField.na }

/-! ## Lead upsert (`upsertLead` in `src/lib/airtable.js`)

`upsertLead(customerData)` looks the customer up by name/email; on a hit
it updates the record with `recordData` (which carries **no** payment
fields), after conditionally deleting the payment keys (a no-op, they are
absent) and deleting `Date Created` when the record already has one; on a
miss it creates the record with `recordData` plus
`Payment Status: 'Pending'` and `Payment Amount: 0`. -/

/-- The lead-record fields relevant to the upsert. -/
structure LeadFields where
  name : Option String
  email : Option String
  phone : Option String
  leadSource : Option String
  dateCreated : Option String
  hcpCustomerId : Option String
  address : Option String
  notes : Option String
  tags : Option String
  paymentStatus : Option String
  paymentAmount : Option ℚ
deriving Repr, DecidableEq

/-- The intake payload (`customerData`); `dateCreated` is the already
ISO-formatted date (the `new Date(...).toISOString().split('T')[0]`
reformatting is abstracted), `tags` the already-joined tag string. -/
structure CustomerData where
  name : String
  email : Option String
  phone : Option String
  leadSource : Option String
  dateCreated : Option String
  hcpId : Option String
  address : Option String
  notes : Option String
  tags : Option String
deriving Repr, DecidableEq

/-- A partial update: `none` means the key is absent from the update
payload, so the store keeps the stored value. -/
structure LeadPatch where
  name : Option String
  email : Option String
  phone : Option String
  leadSource : Option String
  dateCreated : Option String
  hcpCustomerId : Option String
  address : Option String
  notes : Option String
  tags : Option String
  paymentStatus : Option String
  paymentAmount : Option ℚ
deriving Repr, DecidableEq

/-- The `recordData` object built by `upsertLead`: note it contains no
`Payment Status` / `Payment Amount` keys. -/
def upsertRecordData (c : CustomerData) : LeadPatch :=
  { name := some c.name
    email := c.email
    phone := c.phone
    leadSource := c.leadSource
    dateCreated := c.dateCreated
    hcpCustomerId := c.hcpId
    address := some (c.address.getD "")
    notes := some (c.notes.getD "")
    tags := some (c.tags.getD "")
    paymentStatus := none
    paymentAmount := none }

/-- `existingRecord.fields['Payment Status'] !== 'Pending' ||
existingRecord.fields['Payment Amount'] > 0` (an absent status is
`!== 'Pending'`; an absent amount is not `> 0`). -/
def paymentFieldsGuard (f : LeadFields) : Bool :=
  decide (f.paymentStatus ≠ some "Pending") ||
    (match f.paymentAmount with
      | none => false
      | some a => decide (0 < a))

/-- The `updateData` actually sent for an existing record: `recordData`
with the payment keys deleted under the guard (a no-op: they are already
absent) and `Date Created` deleted when the record has a truthy one. -/
def upsertUpdatePatch (f : LeadFields) (c : CustomerData) : LeadPatch :=
  let d0 := upsertRecordData c
  let d1 := if paymentFieldsGuard f then
      { d0 with paymentStatus := none, paymentAmount := none }
    else d0
  if truthyStr f.dateCreated then { d1 with dateCreated := none } else d1

/-- Keys present in the patch overwrite; absent keys keep the stored
value. -/
def patchField {α : Type} (p old : Option α) : Option α :=
  match p with
  | some v => some v
  | none => old

/-- Apply an update payload to a stored record. -/
def applyPatch (f : LeadFields) (p : LeadPatch) : LeadFields :=
  { name := patchField p.name f.name
    email := patchField p.email f.email
    phone := patchField p.phone f.phone
    leadSource := patchField p.leadSource f.leadSource
    dateCreated := patchField p.dateCreated f.dateCreated
    hcpCustomerId := patchField p.hcpCustomerId f.hcpCustomerId
    address := patchField p.address f.address
    notes := patchField p.notes f.notes
    tags := patchField p.tags f.tags
    paymentStatus := patchField p.paymentStatus f.paymentStatus
    paymentAmount := patchField p.paymentAmount f.paymentAmount }

/-- `upsertLead(customerData)`: `existing` is the record found by the
name/email query (`none` when the query returns nothing). -/
def upsertLead (existing : Option LeadFields) (c : CustomerData) :
    LeadFields :=
  match existing with
  | some f => applyPatch f (upsertUpdatePatch f c)
  | none =>
    { name := some c.name
      email := c.email
      phone := c.phone
      leadSource := c.leadSource
      dateCreated := c.dateCreated
      hcpCustomerId := c.hcpId
      address := some (c.address.getD "")
      notes := some (c.notes.getD "")
      tags := some (c.tags.getD "")
      paymentStatus := some "Pending"
      paymentAmount := some 0 }

/-- A stored record that already carries payment state. -/
def paidLeadFields : LeadFields :=
  { name := some "Acme Plumbing", email := some "a@acme.test"
    phone := none, leadSource := some "Google Ads"
    dateCreated := some "2025-01-01", hcpCustomerId := some "hcp1"
    address := none, notes := none, tags := none
    paymentStatus := some "Paid ✅", paymentAmount := some 250 }

/-- A re-intake payload for the same customer. -/
def sampleCustomer : CustomerData :=
  { name := "Acme Plumbing", email := some "a@acme.test"
    phone := some "555-0100", leadSource := some "Google Ads"
    dateCreated := some "2025-02-02", hcpId := some "hcp1"
    address := some "1 Main St", notes := none, tags := none }

/-! ## Claim theorems: aggregation, ROI, upsert -/

/-- The three leads of the spec's aggregation example: payments of 100
(source X), 50 (source X), 30 (source Y). -/
def exampleLeads : List PaidLead :=
  [⟨"l1", some "X", some 100⟩, ⟨"l2", some "X", some 50⟩,
   ⟨"l3", some "Y", some 30⟩]

/-- A concrete summary input with zero ad spend, and one with positive ad
spend, for witnesses. -/
def zeroSpendInput : SummaryInput := ⟨6, 2025, 180, 0, 0, 3, 60, []⟩

/-! ## Upstream failure handling (C9)

`fuzzySearchLeads` wraps its body in `try/catch` and the catch returns
`null`; `getMonthlyExpenses` (`src/lib/quickbooks.js`) catches any error
from the expense fetch and returns zero totals
("Return zeros if unable to fetch expenses"). -/

/-- `fuzzySearchLeads` with the outcome of its store call explicit: the
`catch` block logs and returns `null` on any error. -/
def fuzzySearchLeadsSafe (scorer : String → String → ℚ)
    (storeResult : Except String (List LeadRow)) (customerName : String)
    (threshold : ℚ) : Option LeadRow :=
  match storeResult with
  | .error _ => none
  | .ok store => fuzzySearchLeads scorer store customerName threshold

/-- The categorized expense totals `getExpensesByCategory` yields. -/
structure ExpenseTotals where
  advertising : ℚ
  promotional : ℚ
deriving Repr, DecidableEq

/-- The value returned by `getMonthlyExpenses`. -/
structure MonthlyExpenses where
  month : Nat
  year : Nat
  adSpend : ℚ
  promoSpend : ℚ
  totalSpend : ℚ
deriving Repr, DecidableEq

/-- `getMonthlyExpenses(month, year)` with the outcome of the expense
fetch explicit: the `catch` block returns zeros. -/
def getMonthlyExpenses (fetch : Except String ExpenseTotals)
    (month year : Nat) : MonthlyExpenses :=
  match fetch with
  | .ok e => ⟨month, year, e.advertising, e.promotional,
      e.advertising + e.promotional⟩
  | .error _ => ⟨month, year, 0, 0, 0⟩

/-! ## Ad-spend refresh routing (`update-ad-spend-v3.js`, C8) -/

/-- The query-string flags of an ad-spend refresh invocation. -/
structure AdSpendEvent where
  test : Bool
  testdata : Bool
  debug : Bool
  force : Bool
deriving Repr, DecidableEq

/-- The current date as the handler reads it (`getDate()`,
`getMonth() + 1`, `getFullYear()`). -/
structure SimpleDate where
  year : Nat
  month : Nat
  day : Nat
deriving Repr, DecidableEq

/-- The `nextRun` string the gate builds:
`${now.getFullYear()}-${String(now.getMonth() + 1).padStart(2, '0')}-03`,
i.e. day 3 of the *current* month. -/
def nextRunStr (d : SimpleDate) : String :=
  toString d.year ++ "-" ++ pad2 d.month ++ "-03"

/-- Which early-return path the v3 handler takes. -/
inductive V3Route where
  | testPing
  | testdataPath
  | debugPath
  | dayGateNoop (statusCode : Nat) (nextRun : String)
  | proceed
deriving Repr, DecidableEq

/-- The control flow of the `update-ad-spend-v3.js` handler up to the
day-of-month gate: `test`, `testdata` and `debug` return early (the
`testdata` path writes summary records); otherwise, when the day is not 3
and `force` is absent, the handler returns 200 with the `nextRun` body and
performs no store access; otherwise it proceeds into the refresh
pipeline (modelled separately as `applyAdSpendV3`). -/
def updateAdSpendV3Route (e : AdSpendEvent) (now : SimpleDate) : V3Route :=
  if e.test then .testPing
  else if e.testdata then .testdataPath
  else if e.debug then .debugPath
  else if now.day != 3 && !e.force then .dayGateNoop 200 (nextRunStr now)
  else .proceed

/-- The identical gate of `update-ad-spend-v2.js` (it has only the `test`
early return before it). -/
def updateAdSpendV2Route (test force : Bool) (now : SimpleDate) : V3Route :=
  if test then .testPing
  else if now.day != 3 && !force then .dayGateNoop 200 (nextRunStr now)
  else .proceed

/-- Whether a route reads or writes Monthly Summary records. -/
def routeTouchesSummary : V3Route → Bool
  | .testPing => false
  | .testdataPath => true
  | .debugPath => false
  | .dayGateNoop _ _ => false
  | .proceed => true

/-- Modelled from the spec: "the next eligible date", read as the next
date whose day-of-month is 3 (strictly after `d` when `d.day ≥ 3`). -/
def specNextEligible (d : SimpleDate) : SimpleDate :=
  if d.day < 3 then ⟨d.year, d.month, 3⟩
  else if d.month = 12 then ⟨d.year + 1, 1, 3⟩
  else ⟨d.year, d.month + 1, 3⟩

/-- The spec's next eligible date rendered like the handler's `nextRun`. -/
def specNextEligibleStr (d : SimpleDate) : String :=
  toString (specNextEligible d).year ++ "-" ++
    pad2 (specNextEligible d).month ++ "-03"

/-! ## Ad-spend refresh core (`update-ad-spend-v3.js`, lines 410-477)

After fetching `adSpendByCategory`, the handler (1) selects the period's
summary records (`{Month} = monthName AND {Year} = year`, first page of at
most 100), (2) keys them by `Lead Source` into `existingByLeadSource`
(JS object assignment: later duplicate wins), (3) for every category with
spend > 0 replaces the existing record's `Ad Spend` wholesale or creates
a new record, and (4) sets `Ad Spend` to 0 on every existing keyed record
whose category has falsy (absent or zero) spend in the current input.
The `Ad Spend` cell is written as `String(adSpend)`; the number-to-string
conversion is abstracted because no code path re-reads the cell. -/

/-- A Monthly Summary row as the v3 refresh sees it. -/
structure SummaryRec where
  rid : Nat
  month : String
  year : String
  leadSource : Option String
  totalRevenue : ℚ
  adSpend : ℚ
deriving Repr, DecidableEq

/-- The record filter `{Month} = mn AND {Year} = yr`. -/
def inPeriod (mn yr : String) (r : SummaryRec) : Bool :=
  r.month == mn && r.year == yr

/-- The `firstPage` of the period select (`maxRecords: 100`). -/
def periodPage (tbl : List SummaryRec) (mn yr : String) : List SummaryRec :=
  (tbl.filter (inPeriod mn yr)).take 100

/-- `existingByLeadSource`: the page keyed by `Lead Source` (records
without one are skipped), mapping to the record id. -/
def buildBySource (page : List SummaryRec) : List (String × Nat) :=
  page.foldl
    (fun m r =>
      match r.leadSource with
      | some ls => setEntry m ls r.rid
      | none => m) []

/-- `summaryTable.update(rid, {'Ad Spend': v})`. -/
def setAdSpend (tbl : List SummaryRec) (rid : Nat) (v : ℚ) : List SummaryRec :=
  tbl.map fun r => if r.rid = rid then { r with adSpend := v } else r

/-- Loop 1 of the refresh: for each input category with spend > 0, update
the keyed record's `Ad Spend` or create a fresh record (ids `fid`,
`fid+1`, ...) with `Total Revenue: 0`. -/
def applyPositiveSpend (mn yr : String) (bySource : List (String × Nat)) :
    List (String × ℚ) → List SummaryRec × Nat → List SummaryRec × Nat
  | [], st => st
  | (ls, amt) :: rest, (tbl, fid) =>
    if 0 < amt then
      match getEntry bySource ls with
      | some rid =>
        applyPositiveSpend mn yr bySource rest (setAdSpend tbl rid amt, fid)
      | none =>
        applyPositiveSpend mn yr bySource rest
          (tbl ++ [⟨fid, mn, yr, some ls, 0, amt⟩], fid + 1)
    else applyPositiveSpend mn yr bySource rest (tbl, fid)

/-- Loop 2 of the refresh: zero the `Ad Spend` of every keyed record whose
category is falsy (`!adSpendByCategory[leadSource]`: absent or 0) in the
current input. -/
def zeroStale (spend : List (String × ℚ)) :
    List (String × Nat) → List SummaryRec → List SummaryRec
  | [], tbl => tbl
  | (ls, rid) :: rest, tbl =>
    match getEntry spend ls with
    | none => zeroStale spend rest (setAdSpend tbl rid 0)
    | some a =>
      if a = 0 then zeroStale spend rest (setAdSpend tbl rid 0)
      else zeroStale spend rest tbl

/-- The whole refresh body: page, key, write positive categories, zero
stale ones. Returns the new table and the next fresh record id. -/
def applyAdSpendV3 (tbl : List SummaryRec) (fid : Nat) (mn yr : String)
    (spend : List (String × ℚ)) : List SummaryRec × Nat :=
  let bySource := buildBySource (periodPage tbl mn yr)
  let st := applyPositiveSpend mn yr bySource spend (tbl, fid)
  (zeroStale spend bySource st.1, st.2)

/-! ### Ghost functions characterising one refresh -/

/-- The ad-spend value a period record with source `ls` and current value
`cur` holds after one refresh: a positive input replaces it, a zero or
absent input zeroes it, a negative input (never produced by the expense
sum in practice) leaves it, and a record without a source is untouched. -/
def targetSpend (spend : List (String × ℚ)) (ls : Option String)
    (cur : ℚ) : ℚ :=
  match ls with
  | none => cur
  | some l =>
    match getEntry spend l with
    | some a => if 0 < a then a else if a = 0 then 0 else cur
    | none => 0

/-- Pointwise effect of one refresh on a pre-existing record. -/
def adjustRec (mn yr : String) (spend : List (String × ℚ))
    (r : SummaryRec) : SummaryRec :=
  if inPeriod mn yr r then
    { r with adSpend := targetSpend spend r.leadSource r.adSpend }
  else r

/-- The records loop 1 creates, with their sequential ids. -/
def createdRecs (mn yr : String) (bySource : List (String × Nat)) :
    List (String × ℚ) → Nat → List SummaryRec
  | [], _ => []
  | (ls, amt) :: rest, fid =>
    if 0 < amt then
      match getEntry bySource ls with
      | some _ => createdRecs mn yr bySource rest fid
      | none => ⟨fid, mn, yr, some ls, 0, amt⟩ ::
          createdRecs mn yr bySource rest (fid + 1)
    else createdRecs mn yr bySource rest fid

/-- Pointwise effect of one loop-1 step on one record. -/
def posAdjustOne (bySource : List (String × Nat)) (p : String × ℚ)
    (r : SummaryRec) : SummaryRec :=
  if 0 < p.2 then
    match getEntry bySource p.1 with
    | some rid => if r.rid = rid then { r with adSpend := p.2 } else r
    | none => r
  else r

/-- Pointwise effect of the whole loop 1 on one record. -/
def posAdjust (bySource : List (String × Nat)) (spend : List (String × ℚ))
    (r : SummaryRec) : SummaryRec :=
  spend.foldl (fun r p => posAdjustOne bySource p r) r

/-- Pointwise effect of one loop-2 step on one record. -/
def zeroAdjustOne (spend : List (String × ℚ)) (q : String × Nat)
    (r : SummaryRec) : SummaryRec :=
  match getEntry spend q.1 with
  | none => if r.rid = q.2 then { r with adSpend := 0 } else r
  | some a =>
    if a = 0 then (if r.rid = q.2 then { r with adSpend := 0 } else r)
    else r

/-- Pointwise effect of the whole loop 2 on one record. -/
def zeroAdjust (spend : List (String × ℚ)) (bySource : List (String × Nat))
    (r : SummaryRec) : SummaryRec :=
  bySource.foldl (fun r q => zeroAdjustOne spend q r) r

/-! ### Structure of `existingByLeadSource` -/

/-- The per-record entry contributed to `existingByLeadSource`. -/
def bySourceEntry (r : SummaryRec) : Option (String × Nat) :=
  r.leadSource.map fun l => (l, r.rid)

/-- The state after applying `{A: 100}` to an empty June 2025 table. -/
def afterFirstRun : List SummaryRec :=
  (applyAdSpendV3 [] 0 "June" "2025" [("A", 100)]).1

/-! ## Lemmas and claim theorems -/

/-! ### Sorting helpers for the Fuse model -/

/-- If a merge sort by a score function returns `r` first, then `r`
minimises the score over the input list. -/
theorem mergeSort_head_min {α : Type} (f : α → ℚ) (l : List α) (r : α)
    (rest : List α)
    (h : l.mergeSort (fun a b => decide (f a ≤ f b)) = r :: rest) :
    ∀ x ∈ l, f r ≤ f x := by
  intro x hx
  have hperm := List.mergeSort_perm l (fun a b => decide (f a ≤ f b))
  have hx2 : x ∈ r :: rest := by
    rw [← h]
    exact hperm.symm.mem_iff.mp hx
  have hsorted :
      List.Pairwise (fun a b => (decide (f a ≤ f b)) = true)
        (l.mergeSort (fun a b => decide (f a ≤ f b))) := by
    refine List.sorted_mergeSort ?_ ?_ l
    · intro a b c hab hbc
      simp only [decide_eq_true_eq] at *
      exact le_trans hab hbc
    · intro a b
      simp only [Bool.or_eq_true, decide_eq_true_eq]
      exact le_total (f a) (f b)
  rw [h, List.pairwise_cons] at hsorted
  rcases List.mem_cons.mp hx2 with rfl | hxr
  · exact le_refl _
  · have := hsorted.1 x hxr
    simpa using this

/-- A merge sort returns the empty list only on the empty list. -/
theorem mergeSort_eq_nil {α : Type} (le : α → α → Bool) (l : List α)
    (h : l.mergeSort le = []) : l = [] := by
  have hperm := List.mergeSort_perm l le
  rw [h] at hperm
  exact hperm.symm.eq_nil

/-! ### Claims about the reconciliation engine -/

/-- C1: if the exact case-insensitive substring query returns one or more
hits, `findLeadByName` returns the first hit in store result order, issues
exactly one store query, and never invokes the approximate (fuzzy)
scorer. -/
theorem findLeadByName_exact_short_circuit
    (scorer : String → String → ℚ) (store : List LeadRow) (nm : String)
    (t : ℚ) (h : exactNameQuery store nm ≠ []) :
    findLeadByName scorer store (some nm) t =
      ⟨.ok (exactNameQuery store nm).head?, 1, false⟩ := by
  match hq : exactNameQuery store nm with
  | [] => exact absurd hq h
  | r :: rest =>
    simp only [findLeadByName, hq, List.head?_cons]

/-- Witness for C1: a concrete store where the exact query hits, so the
first hit is returned with a single store query and no fuzzy scoring. -/
theorem findLeadByName_exact_short_circuit_witness :
    exactNameQuery janeStore "Jane Doe" ≠ [] ∧
      findLeadByName zeroScorer janeStore (some "Jane Doe") (8 / 10) =
        ⟨.ok (exactNameQuery janeStore "Jane Doe").head?, 1, false⟩ :=
  ⟨by decide,
   findLeadByName_exact_short_circuit zeroScorer janeStore "Jane Doe" (8 / 10)
     (by decide)⟩

/-- C7 counterexample: for the empty target name, `findLeadByName` does
issue a store query (there is no empty-name guard in the code), refuting
"no store query issued". -/
theorem findLeadByName_empty_name_queries_store :
    (findLeadByName zeroScorer janeStore (some "") (8 / 10)).storeQueries ≠ 0 := by
  decide

/-- C7 amended: `findLeadByName` has no empty/null guard. A null target
name throws (the `catch` rethrows a `TypeError` from
`customerName.toLowerCase()`) before any store query; an empty target name
is processed like any other name, issuing the exact store query. -/
theorem findLeadByName_no_empty_guard
    (scorer : String → String → ℚ) (store : List LeadRow) (t : ℚ) :
    findLeadByName scorer store none t = ⟨.err, 0, false⟩ ∧
      1 ≤ (findLeadByName scorer store (some "") t).storeQueries := by
  refine ⟨rfl, ?_⟩
  match hq : exactNameQuery store "" with
  | [] => simp only [findLeadByName, hq]; norm_num
  | r :: rest => simp only [findLeadByName, hq]; norm_num

/-- `fuzzySearchLeads` with the page bound removed, for stores within the
1000-record page. -/
theorem fuzzySearchLeads_take (scorer : String → String → ℚ)
    (store : List LeadRow) (nm : String) (t : ℚ)
    (hlen : store.length ≤ 1000) :
    fuzzySearchLeads scorer store nm t =
      match fuseSearch scorer nm store (1 - t) with
      | [] => none
      | r :: _ => if r.2 ≤ 1 - t then some r.1 else none := by
  unfold fuzzySearchLeads
  rw [List.take_of_length_le hlen]

/-- An empty Fuse result means no candidate score passed the threshold. -/
theorem fuseSearch_nil (scorer : String → String → ℚ) (nm : String)
    (store : List LeadRow) (th : ℚ)
    (h : fuseSearch scorer nm store th = []) :
    ∀ l ∈ store, ¬ (scorer nm l.name ≤ th) := by
  intro l hl hcon
  unfold fuseSearch at h
  have hFnil := mergeSort_eq_nil _ _ h
  have hmem : (l, scorer nm l.name) ∈
      (store.map fun l => (l, scorer nm l.name)).filter
        fun p => decide (p.2 ≤ th) := by
    refine List.mem_filter.mpr ⟨List.mem_map.mpr ⟨l, hl, rfl⟩, ?_⟩
    simpa using hcon
  rw [hFnil] at hmem
  exact absurd hmem (List.not_mem_nil _)

/-- The first Fuse result is a candidate, carries that candidate's score,
passes the threshold, and minimises the score over all candidates. -/
theorem fuseSearch_cons (scorer : String → String → ℚ) (nm : String)
    (store : List LeadRow) (th : ℚ) (r : LeadRow × ℚ)
    (rest : List (LeadRow × ℚ))
    (h : fuseSearch scorer nm store th = r :: rest) :
    r.1 ∈ store ∧ r.2 = scorer nm r.1.name ∧ r.2 ≤ th ∧
      ∀ l ∈ store, r.2 ≤ scorer nm l.name := by
  unfold fuseSearch at h
  have hrF : r ∈ (store.map fun l => (l, scorer nm l.name)).filter
      fun p => decide (p.2 ≤ th) := by
    have hperm := List.mergeSort_perm
      ((store.map fun l => (l, scorer nm l.name)).filter
        fun p => decide (p.2 ≤ th)) (fun a b => decide (a.2 ≤ b.2))
    rw [h] at hperm
    exact hperm.mem_iff.mp (List.mem_cons_self r rest)
  obtain ⟨hrmap, hrle⟩ := List.mem_filter.mp hrF
  obtain ⟨l0, hl0, hl0eq⟩ := List.mem_map.mp hrmap
  have hrth : r.2 ≤ th := by simpa using hrle
  have hmin := mergeSort_head_min (fun p : LeadRow × ℚ => p.2) _ r rest h
  have hsc : r.2 = scorer nm r.1.name := by rw [← hl0eq]
  refine ⟨by rw [← hl0eq]; exact hl0, hsc, hrth, ?_⟩
  intro l hl
  by_cases hcase : scorer nm l.name ≤ th
  · refine hmin (l, scorer nm l.name) ?_
    refine List.mem_filter.mpr ⟨List.mem_map.mpr ⟨l, hl, rfl⟩, ?_⟩
    simpa using hcase
  · push_neg at hcase
    linarith

/-- C2: in the approximate path, the returned record (if any) is a
candidate with maximal similarity `1 - fuseScore`, it is accepted exactly
when its similarity is at least the threshold (`≥`, so a score exactly at
the threshold is accepted), and a match is returned iff some candidate
reaches the threshold. -/
theorem fuzzySearchLeads_best_and_threshold
    (scorer : String → String → ℚ) (store : List LeadRow) (nm : String)
    (t : ℚ) (ht0 : 0 ≤ t) (ht1 : t ≤ 1) (hlen : store.length ≤ 1000) :
    (∀ m, fuzzySearchLeads scorer store nm t = some m →
        m ∈ store ∧
        (∀ l ∈ store, 1 - scorer nm l.name ≤ 1 - scorer nm m.name) ∧
        t ≤ 1 - scorer nm m.name) ∧
      ((∃ l ∈ store, t ≤ 1 - scorer nm l.name) ↔
        ∃ m, fuzzySearchLeads scorer store nm t = some m) := by
  clear ht0 ht1
  rw [fuzzySearchLeads_take scorer store nm t hlen]
  match hS : fuseSearch scorer nm store (1 - t) with
  | [] =>
    have hnone := fuseSearch_nil scorer nm store (1 - t) hS
    constructor
    · intro m hm
      exact absurd hm (by simp)
    · constructor
      · rintro ⟨l, hl, hscore⟩
        exact absurd (by linarith : scorer nm l.name ≤ 1 - t) (hnone l hl)
      · rintro ⟨m, hm⟩
        exact absurd hm (by simp)
  | r :: rest =>
    obtain ⟨hr1, hr2, hrth, hbest⟩ :=
      fuseSearch_cons scorer nm store (1 - t) r rest hS
    simp only [hrth, if_true]
    constructor
    · intro m hm
      obtain rfl : r.1 = m := by simpa using hm
      refine ⟨hr1, ?_, ?_⟩
      · intro l hl
        rw [← hr2]
        linarith [hbest l hl]
      · rw [← hr2]
        linarith
    · constructor
      · intro _
        exact ⟨r.1, rfl⟩
      · rintro ⟨m, _⟩
        refine ⟨r.1, hr1, ?_⟩
        rw [← hr2]
        linarith

/-- Witness for C2: the theorem instantiated at a concrete scorer, store
and threshold. -/
theorem fuzzySearchLeads_best_and_threshold_witness :
    ((0 : ℚ) ≤ 8 / 10 ∧ (8 : ℚ) / 10 ≤ 1 ∧ janeStore.length ≤ 1000) ∧
      ((∀ m, fuzzySearchLeads zeroScorer janeStore "Jane" (8 / 10) = some m →
          m ∈ janeStore ∧
          (∀ l ∈ janeStore,
            1 - zeroScorer "Jane" l.name ≤ 1 - zeroScorer "Jane" m.name) ∧
          (8 : ℚ) / 10 ≤ 1 - zeroScorer "Jane" m.name) ∧
        ((∃ l ∈ janeStore, (8 : ℚ) / 10 ≤ 1 - zeroScorer "Jane" l.name) ↔
          ∃ m, fuzzySearchLeads zeroScorer janeStore "Jane" (8 / 10) = some m)) :=
  ⟨⟨by norm_num, by norm_num, by decide⟩,
   fuzzySearchLeads_best_and_threshold zeroScorer janeStore "Jane" (8 / 10)
     (by norm_num) (by norm_num) (by decide)⟩

theorem getEntry_setEntry_same {β : Type} (m : List (String × β))
    (k : String) (v : β) : getEntry (setEntry m k v) k = some v := by
  induction m with
  | nil => simp [setEntry, getEntry]
  | cons p tl ih =>
    unfold setEntry
    by_cases h : p.1 = k
    · rw [if_pos (by simpa using h)]
      simp [getEntry]
    · rw [if_neg (by simpa using h)]
      unfold getEntry
      rw [if_neg (by simpa using h)]
      exact ih

theorem getEntry_setEntry_other {β : Type} (m : List (String × β))
    (k k2 : String) (v : β) (hne : k2 ≠ k) :
    getEntry (setEntry m k v) k2 = getEntry m k2 := by
  induction m with
  | nil =>
    unfold setEntry getEntry
    rw [if_neg (by simp only [beq_iff_eq]; exact fun h2 => hne h2.symm)]
    rfl
  | cons p tl ih =>
    unfold setEntry
    by_cases h : p.1 = k
    · rw [if_pos (by simpa using h)]
      unfold getEntry
      rw [if_neg (by simp only [beq_iff_eq]; exact fun h2 => hne h2.symm),
        if_neg (by simp only [beq_iff_eq, h]; exact fun h2 => hne h2.symm)]
    · rw [if_neg (by simpa using h)]
      unfold getEntry
      by_cases h2 : p.1 = k2
      · rw [if_pos (by simpa using h2), if_pos (by simpa using h2)]
      · rw [if_neg (by simpa using h2), if_neg (by simpa using h2)]
        exact ih

theorem aggregate_entry_eq_spec (leads : List PaidLead) (s : String) :
    getEntry (aggregateRevenueBySource leads) s = aggSpec leads s := by
  induction leads using List.reverseRecOn with
  | nil => simp [aggregateRevenueBySource, aggSpec, sourceLeads, getEntry]
  | append_singleton l x ih =>
    have hfold : aggregateRevenueBySource (l ++ [x]) =
        aggStep (aggregateRevenueBySource l) x := by
      unfold aggregateRevenueBySource
      exact List.foldl_concat aggStep [] x l
    rw [hfold]
    by_cases hsrc : leadSourceOf x = s
    · subst hsrc
      have hsl : sourceLeads (l ++ [x]) (leadSourceOf x) =
          sourceLeads l (leadSourceOf x) ++ [x] := by
        simp [sourceLeads]
      unfold aggStep
      rw [getEntry_setEntry_same, ih]
      unfold aggSpec
      rw [hsl]
      by_cases hnil : (sourceLeads l (leadSourceOf x)).length = 0
      · have : sourceLeads l (leadSourceOf x) = [] :=
          List.length_eq_zero.mp hnil
        simp [this, sumAmounts]
      · rw [if_neg hnil, if_neg (by simp)]
        simp only [Option.getD_some]
        have hlen : ((sourceLeads l (leadSourceOf x) ++ [x]).length : ℚ) =
            ((sourceLeads l (leadSourceOf x)).length : ℚ) + 1 := by
          push_cast [List.length_append, List.length_singleton]
          ring
        have hsum : sumAmounts (sourceLeads l (leadSourceOf x) ++ [x]) =
            sumAmounts (sourceLeads l (leadSourceOf x)) + amountOf x := by
          simp [sumAmounts]
        rw [hsum, hlen]
    · unfold aggStep
      rw [getEntry_setEntry_other _ _ _ _ (fun h => hsrc h.symm), ih]
      have hsl : sourceLeads (l ++ [x]) s = sourceLeads l s := by
        simp [sourceLeads, hsrc]
      unfold aggSpec
      rw [hsl]

/-- C3: per source, `aggregateRevenueBySource` computes total = sum of
that source's amounts, count = number of that source's leads, and
average = total / count; on the spec's example it yields
X = (150, 2, 75) and Y = (30, 1, 30) with overall revenue 180; and the
incremental summary update also recomputes the mutated source entry's
average as total / count. -/
theorem revenue_aggregation_and_averages :
    (∀ leads s e, getEntry (aggregateRevenueBySource leads) s = some e →
        e.totalRevenue = sumAmounts (sourceLeads leads s) ∧
        e.customerCount = ((sourceLeads leads s).length : ℚ) ∧
        e.averageRevenue = e.totalRevenue / e.customerCount) ∧
      aggregateRevenueBySource exampleLeads =
        [("X", ⟨150, 2, 75⟩), ("Y", ⟨30, 1, 30⟩)] ∧
      totalRevenueOfLeads exampleLeads = 180 ∧
      (∀ existing p, ∃ en,
        getEntry (updateMonthlySummaryWithPayment existing p).revenueBySource
            p.leadSource = some en ∧
        en.averageRevenue = en.totalRevenue / en.customerCount) := by
  refine ⟨?_, ?_, ?_, ?_⟩
  · intro leads s e he
    rw [aggregate_entry_eq_spec] at he
    unfold aggSpec at he
    by_cases h : (sourceLeads leads s).length = 0
    · rw [if_pos h] at he
      exact absurd he (by simp)
    · rw [if_neg h] at he
      obtain rfl := (Option.some.inj he).symm
      exact ⟨rfl, rfl, rfl⟩
  · show aggregateRevenueBySource exampleLeads = _
    unfold exampleLeads aggregateRevenueBySource
    simp [aggStep, leadSourceOf, amountOf, orZero, getEntry, setEntry]
    norm_num
  · unfold totalRevenueOfLeads exampleLeads
    simp [amountOf, orZero]
    norm_num
  · intro existing p
    match existing with
    | some cur =>
      exact ⟨_, getEntry_setEntry_same _ _ _, rfl⟩
    | none =>
      refine ⟨⟨p.paymentAmount, 1, p.paymentAmount⟩, ?_, ?_⟩
      · simp [updateMonthlySummaryWithPayment, getEntry]
      · exact (div_one _).symm

/-- Witness for C3: the general per-source characterisation applied at the
example list and source X. -/
theorem revenue_aggregation_and_averages_witness :
    getEntry (aggregateRevenueBySource exampleLeads) "X" =
        some ⟨150, 2, 75⟩ ∧
      ((⟨150, 2, 75⟩ : SourceAgg).totalRevenue =
          sumAmounts (sourceLeads exampleLeads "X") ∧
        (⟨150, 2, 75⟩ : SourceAgg).customerCount =
          ((sourceLeads exampleLeads "X").length : ℚ) ∧
        (⟨150, 2, 75⟩ : SourceAgg).averageRevenue =
          (⟨150, 2, 75⟩ : SourceAgg).totalRevenue /
            (⟨150, 2, 75⟩ : SourceAgg).customerCount) := by
  have hget : getEntry (aggregateRevenueBySource exampleLeads) "X" =
      some ⟨150, 2, 75⟩ := by
    rw [revenue_aggregation_and_averages.2.1]
    simp [getEntry]
  exact ⟨hget, revenue_aggregation_and_averages.1 exampleLeads "X" _ hget⟩

/-- C6: in every summary write, a zero (or negative) total ad spend stores
the literal not-applicable ROI, and a percentage ROI is only ever stored
when the total ad spend is strictly positive, so the ROI division is never
evaluated with a zero divisor. -/
theorem roi_guard_all_summary_writes :
    (∀ d : SummaryInput, d.totalAdSpend = 0 →
        (createMonthlySummary d).roi = RoiField.na) ∧
      (∀ (d : SummaryInput) q, (createMonthlySummary d).roi = RoiField.pct q →
        0 < d.totalAdSpend) ∧
      (∀ (cur : SummaryFields) p, orZero cur.totalAdSpend = 0 →
        (updateMonthlySummaryWithPayment (some cur) p).roi = RoiField.na) ∧
      (∀ (cur : SummaryFields) p q,
        (updateMonthlySummaryWithPayment (some cur) p).roi = RoiField.pct q →
        0 < orZero cur.totalAdSpend) ∧
      (∀ p, (updateMonthlySummaryWithPayment none p).roi = RoiField.na) ∧
      (∀ (cur : SummaryFields) a, a = 0 →
        (updateAdSpendV2Existing cur a).roi = RoiField.na) ∧
      (∀ (cur : SummaryFields) a q,
        (updateAdSpendV2Existing cur a).roi = RoiField.pct q → 0 < a) ∧
      (∀ a, (updateAdSpendV2Create a).roi = RoiField.na) := by
  refine ⟨?_, ?_, ?_, ?_, ?_, ?_, ?_, ?_⟩
  · intro d hd
    simp [createMonthlySummary, hd]
  · intro d q hq
    by_contra hle
    simp [createMonthlySummary, if_neg hle] at hq
  · intro cur p hz
    simp [updateMonthlySummaryWithPayment, hz]
  · intro cur p q hq
    by_contra hle
    simp [updateMonthlySummaryWithPayment, if_neg hle] at hq
  · intro p
    rfl
  · intro cur a ha
    simp [updateAdSpendV2Existing, ha]
  · intro cur a q hq
    by_contra hle
    simp [updateAdSpendV2Existing, if_neg hle] at hq
  · intro a
    rfl

/-- Witness for C6: the zero-ad-spend branches instantiated concretely. -/
theorem roi_guard_all_summary_writes_witness :
    (createMonthlySummary zeroSpendInput).roi = RoiField.na ∧
      (updateMonthlySummaryWithPayment
          (some ⟨some 180, some 3, some 0, some 0, []⟩)
          ⟨6, 2025, "X", 250⟩).roi = RoiField.na ∧
      (updateAdSpendV2Existing ⟨some 180, some 3, some 0, some 0, []⟩ 0).roi =
        RoiField.na :=
  ⟨roi_guard_all_summary_writes.1 zeroSpendInput rfl,
   roi_guard_all_summary_writes.2.2.1 ⟨some 180, some 3, some 0, some 0, []⟩
     ⟨6, 2025, "X", 250⟩ rfl,
   roi_guard_all_summary_writes.2.2.2.2.2.1
     ⟨some 180, some 3, some 0, some 0, []⟩ 0 rfl⟩

/-- C10: an intake upsert over an existing record never changes the
record's payment fields (in particular when the record already carries
payment state), never overwrites a truthy `Date Created`, and only the
create branch writes the defaults `Payment Status = 'Pending'`,
`Payment Amount = 0`. -/
theorem upsertLead_preserves_payment_state
    (f : LeadFields) (c : CustomerData)
    (hpay : f.paymentStatus ≠ some "Pending" ∨
      ∃ a, f.paymentAmount = some a ∧ 0 < a) :
    ((upsertLead (some f) c).paymentStatus = f.paymentStatus ∧
        (upsertLead (some f) c).paymentAmount = f.paymentAmount) ∧
      (truthyStr f.dateCreated = true →
        (upsertLead (some f) c).dateCreated = f.dateCreated) ∧
      ((upsertLead none c).paymentStatus = some "Pending" ∧
        (upsertLead none c).paymentAmount = some 0) := by
  clear hpay
  refine ⟨⟨?_, ?_⟩, ?_, rfl, rfl⟩
  all_goals
    unfold upsertLead applyPatch upsertUpdatePatch upsertRecordData
  · by_cases hg : paymentFieldsGuard f <;>
      by_cases ht : truthyStr f.dateCreated <;>
      simp [hg, ht, patchField]
  · by_cases hg : paymentFieldsGuard f <;>
      by_cases ht : truthyStr f.dateCreated <;>
      simp [hg, ht, patchField]
  · intro ht
    by_cases hg : paymentFieldsGuard f <;> simp [hg, ht, patchField]

/-- Witness for C10: a record already marked paid with a positive amount
and a truthy creation date keeps all three fields through an upsert. -/
theorem upsertLead_preserves_payment_state_witness :
    ((paidLeadFields.paymentStatus ≠ some "Pending" ∨
        ∃ a, paidLeadFields.paymentAmount = some a ∧ 0 < a) ∧
      (upsertLead (some paidLeadFields) sampleCustomer).paymentStatus =
        paidLeadFields.paymentStatus ∧
      (upsertLead (some paidLeadFields) sampleCustomer).paymentAmount =
        paidLeadFields.paymentAmount ∧
      (upsertLead (some paidLeadFields) sampleCustomer).dateCreated =
        paidLeadFields.dateCreated) := by
  have h := upsertLead_preserves_payment_state paidLeadFields sampleCustomer
    (Or.inl (by simp [paidLeadFields]))
  exact ⟨Or.inl (by simp [paidLeadFields]), h.1.1, h.1.2,
    h.2.1 (by simp [paidLeadFields, truthyStr])⟩

/-! ### Claims C8 and C9 -/

/-- C8 counterexample: invoked on 2025-06-15 without flags, the gate
returns 200 reporting `nextRun = "2025-06-03"` - day 3 of the *current*
month, already in the past - while the next date whose day-of-month is 3
is 2025-07-03. -/
theorem adSpend_gate_nextRun_counterexample :
    updateAdSpendV3Route ⟨false, false, false, false⟩ ⟨2025, 6, 15⟩ =
        V3Route.dayGateNoop 200 "2025-06-03" ∧
      specNextEligibleStr ⟨2025, 6, 15⟩ = "2025-07-03" ∧
      ("2025-06-03" : String) ≠ "2025-07-03" := by
  refine ⟨by decide, by decide, by decide⟩

/-- C8 amended: a default invocation (no test/testdata/debug flags) on a
day other than the 3rd without `force` performs no summary-store access
and returns 200 with a body reporting day 3 of the current month as the
next run (a date in the past when the day is after the 3rd); the v2
handler's gate behaves identically. -/
theorem adSpend_gate_noop (e : AdSpendEvent) (now : SimpleDate)
    (htest : e.test = false) (htd : e.testdata = false)
    (hdb : e.debug = false) (hforce : e.force = false)
    (hday : now.day ≠ 3) :
    updateAdSpendV3Route e now = .dayGateNoop 200 (nextRunStr now) ∧
      routeTouchesSummary (updateAdSpendV3Route e now) = false ∧
      updateAdSpendV2Route false false now =
        .dayGateNoop 200 (nextRunStr now) := by
  have hbne : (now.day != 3) = true := by simpa using hday
  have h3 : updateAdSpendV3Route e now = .dayGateNoop 200 (nextRunStr now) := by
    unfold updateAdSpendV3Route
    rw [htest, htd, hdb, hforce, hbne]
    rfl
  have h2 : updateAdSpendV2Route false false now =
      .dayGateNoop 200 (nextRunStr now) := by
    unfold updateAdSpendV2Route
    rw [hbne]
    rfl
  exact ⟨h3, by rw [h3]; rfl, h2⟩

/-- Witness for C8 (amended): the gate at 2025-06-15 with no flags. -/
theorem adSpend_gate_noop_witness :
    updateAdSpendV3Route ⟨false, false, false, false⟩ ⟨2025, 6, 15⟩ =
        .dayGateNoop 200 (nextRunStr ⟨2025, 6, 15⟩) ∧
      routeTouchesSummary
          (updateAdSpendV3Route ⟨false, false, false, false⟩ ⟨2025, 6, 15⟩) =
        false ∧
      updateAdSpendV2Route false false ⟨2025, 6, 15⟩ =
        .dayGateNoop 200 (nextRunStr ⟨2025, 6, 15⟩) :=
  adSpend_gate_noop ⟨false, false, false, false⟩ ⟨2025, 6, 15⟩
    rfl rfl rfl rfl (by decide)

/-- C9 counterexample: a failed store query inside the fuzzy search yields
exactly the ordinary no-match outcome (`null`), and a failed monthly
expense fetch yields exactly the ordinary zero expense totals - upstream
failures are silently defaulted, not surfaced. -/
theorem upstream_failure_defaults_counterexample :
    fuzzySearchLeadsSafe zeroScorer (.error "ECONNRESET") "Jane Doe" (8 / 10) =
        fuzzySearchLeadsSafe zeroScorer (.ok []) "Jane Doe" (8 / 10) ∧
      getMonthlyExpenses (.error "ECONNRESET") 6 2025 =
        getMonthlyExpenses (.ok ⟨0, 0⟩) 6 2025 := by
  constructor
  · simp [fuzzySearchLeadsSafe, fuzzySearchLeads, fuseSearch]
  · simp [getMonthlyExpenses]

/-- C9 amended: the fuzzy search's catch reports the ordinary no-match
outcome (`null`) when the store query fails, and `getMonthlyExpenses`
reports ordinary zero expense totals when the expense fetch fails: these
two operations silently default instead of surfacing the failure. -/
theorem upstream_failures_return_defaults
    (scorer : String → String → ℚ) (err : String) (nm : String) (t : ℚ)
    (m y : Nat) :
    fuzzySearchLeadsSafe scorer (.error err) nm t = none ∧
      getMonthlyExpenses (.error err) m y = ⟨m, y, 0, 0, 0⟩ :=
  ⟨rfl, rfl⟩

/-! ### Association-list facts used by the refresh proofs -/

theorem map_self {α : Type} (l : List α) (f : α → α)
    (h : ∀ x ∈ l, f x = x) : l.map f = l := by
  induction l with
  | nil => rfl
  | cons x tl ih =>
    simp only [List.map_cons, h x (List.mem_cons_self x tl)]
    rw [ih fun y hy => h y (List.mem_cons_of_mem x hy)]

theorem getEntry_mem {β : Type} (m : List (String × β)) (k : String) (v : β)
    (h : getEntry m k = some v) : (k, v) ∈ m := by
  induction m with
  | nil => simp [getEntry] at h
  | cons p tl ih =>
    unfold getEntry at h
    by_cases hk : p.1 = k
    · rw [if_pos (by simpa using hk)] at h
      obtain rfl := Option.some.inj h
      have hpe : (k, p.2) = p := by rw [← hk]
      rw [hpe]
      exact List.mem_cons_self p tl
    · rw [if_neg (by simpa using hk)] at h
      exact List.mem_cons_of_mem p (ih h)

theorem getEntry_of_mem_nodup {β : Type} (m : List (String × β))
    (k : String) (v : β) (hnd : (m.map (·.1)).Nodup) (hmem : (k, v) ∈ m) :
    getEntry m k = some v := by
  induction m with
  | nil => simp at hmem
  | cons p tl ih =>
    rcases List.mem_cons.mp hmem with rfl | hmem2
    · unfold getEntry
      rw [if_pos (by simp)]
    · unfold getEntry
      have hk : p.1 ≠ k := by
        intro hk
        have : k ∈ tl.map (·.1) := List.mem_map.mpr ⟨(k, v), hmem2, rfl⟩
        simp only [List.map_cons, List.nodup_cons] at hnd
        exact hnd.1 (hk ▸ this)
      rw [if_neg (by simpa using hk)]
      refine ih ?_ hmem2
      simp only [List.map_cons, List.nodup_cons] at hnd
      exact hnd.2

theorem getEntry_isSome_of_key_mem {β : Type} (m : List (String × β))
    (k : String) (h : k ∈ m.map (·.1)) : ∃ v, getEntry m k = some v := by
  induction m with
  | nil => simp at h
  | cons p tl ih =>
    by_cases hk : p.1 = k
    · exact ⟨p.2, by unfold getEntry; rw [if_pos (by simpa using hk)]⟩
    · have h2 : k ∈ tl.map (·.1) := by
        simp only [List.map_cons, List.mem_cons] at h
        rcases h with h3 | h3
        · exact absurd h3.symm hk
        · exact h3
      obtain ⟨v, hv⟩ := ih h2
      exact ⟨v, by unfold getEntry; rw [if_neg (by simpa using hk)]; exact hv⟩

theorem setEntry_append_of_not_mem {β : Type} (m : List (String × β))
    (k : String) (v : β) (h : ∀ p ∈ m, p.1 ≠ k) :
    setEntry m k v = m ++ [(k, v)] := by
  induction m with
  | nil => rfl
  | cons p tl ih =>
    unfold setEntry
    rw [if_neg (by simpa using h p (List.mem_cons_self p tl))]
    rw [ih fun q hq => h q (List.mem_cons_of_mem p hq)]
    rfl

theorem buildBySource_go (page : List SummaryRec)
    (acc : List (String × Nat))
    (hdisj : ∀ k ∈ acc.map (·.1), k ∉ page.filterMap (·.leadSource))
    (hnd : (page.filterMap (·.leadSource)).Nodup) :
    page.foldl
        (fun m r =>
          match r.leadSource with
          | some ls => setEntry m ls r.rid
          | none => m) acc =
      acc ++ page.filterMap bySourceEntry := by
  induction page generalizing acc with
  | nil => simp
  | cons r rest ih =>
    match hls : r.leadSource with
    | none =>
      simp only [List.foldl_cons, hls]
      have hrw : (r :: rest).filterMap bySourceEntry =
          rest.filterMap bySourceEntry := by
        simp [List.filterMap_cons, bySourceEntry, hls]
      rw [hrw]
      refine ih acc ?_ ?_
      · intro k hk
        have := hdisj k hk
        simp only [List.filterMap_cons, hls] at this
        exact this
      · simpa only [List.filterMap_cons, hls] using hnd
    | some l =>
      simp only [List.foldl_cons, hls]
      have hlacc : ∀ p ∈ acc, p.1 ≠ l := by
        intro p hp hpe
        refine hdisj p.1 (List.mem_map.mpr ⟨p, hp, rfl⟩) ?_
        simp only [List.filterMap_cons, hls]
        rw [hpe]
        exact List.mem_cons_self l _
      rw [setEntry_append_of_not_mem acc l r.rid hlacc]
      have hnd2 : (l :: rest.filterMap (·.leadSource)).Nodup := by
        simpa only [List.filterMap_cons, hls] using hnd
      have hstep := ih (acc ++ [(l, r.rid)]) ?_ (List.nodup_cons.mp hnd2).2
      · rw [hstep]
        simp [List.filterMap_cons, bySourceEntry, hls]
      · intro k hk
        simp only [List.map_append, List.mem_append] at hk
        rcases hk with hk2 | hk2
        · intro hmem
          refine hdisj k hk2 ?_
          simp only [List.filterMap_cons, hls]
          exact List.mem_cons_of_mem l hmem
        · simp at hk2
          subst hk2
          exact (List.nodup_cons.mp hnd2).1

theorem buildBySource_eq (page : List SummaryRec)
    (hnd : (page.filterMap (·.leadSource)).Nodup) :
    buildBySource page = page.filterMap bySourceEntry := by
  unfold buildBySource
  simpa using buildBySource_go page [] (by simp) hnd

theorem filterMap_congr_mem {α β : Type} (l : List α) (f g : α → Option β)
    (h : ∀ a ∈ l, f a = g a) : l.filterMap f = l.filterMap g := by
  induction l with
  | nil => rfl
  | cons x tl ih =>
    simp only [List.filterMap_cons, h x (List.mem_cons_self x tl)]
    rw [ih fun a ha => h a (List.mem_cons_of_mem x ha)]

theorem buildBySource_keys (page : List SummaryRec)
    (hnd : (page.filterMap (·.leadSource)).Nodup) :
    (buildBySource page).map (·.1) = page.filterMap (·.leadSource) := by
  rw [buildBySource_eq page hnd, List.map_filterMap]
  refine filterMap_congr_mem page _ _ ?_
  intro r _
  cases hls : r.leadSource <;> simp [bySourceEntry, hls]

theorem buildBySource_mem (page : List SummaryRec)
    (hnd : (page.filterMap (·.leadSource)).Nodup) (q : String × Nat)
    (hq : q ∈ buildBySource page) :
    ∃ rp ∈ page, rp.leadSource = some q.1 ∧ rp.rid = q.2 := by
  rw [buildBySource_eq page hnd] at hq
  obtain ⟨rp, hrp, hqe⟩ := List.mem_filterMap.mp hq
  refine ⟨rp, hrp, ?_⟩
  unfold bySourceEntry at hqe
  match hls : rp.leadSource with
  | none => rw [hls] at hqe; simp at hqe
  | some l =>
    rw [hls] at hqe
    simp only [Option.map_some'] at hqe
    obtain rfl := Option.some.inj hqe
    exact ⟨rfl, rfl⟩

theorem buildBySource_lookup (page : List SummaryRec)
    (hnd : (page.filterMap (·.leadSource)).Nodup)
    (hnid : (page.map (·.rid)).Nodup)
    (r : SummaryRec) (ls : String) (hr : r ∈ page)
    (hls : r.leadSource = some ls) :
    getEntry (buildBySource page) ls = some r.rid := by
  clear hnid
  refine getEntry_of_mem_nodup _ _ _ ?_ ?_
  · rw [buildBySource_keys page hnd]
    exact hnd
  · rw [buildBySource_eq page hnd]
    exact List.mem_filterMap.mpr ⟨r, hr, by simp [bySourceEntry, hls]⟩

/-! ### Pointwise skip lemmas -/

theorem posAdjust_skip (bySource : List (String × Nat))
    (spend : List (String × ℚ)) (r : SummaryRec)
    (h : ∀ p ∈ spend, ∀ rid, getEntry bySource p.1 = some rid →
      rid ≠ r.rid) :
    posAdjust bySource spend r = r := by
  induction spend with
  | nil => rfl
  | cons p rest ih =>
    unfold posAdjust
    simp only [List.foldl_cons]
    have hone : posAdjustOne bySource p r = r := by
      unfold posAdjustOne
      by_cases hp : 0 < p.2
      · rw [if_pos hp]
        match hb : getEntry bySource p.1 with
        | some rid =>
          exact if_neg fun hrr => h p (List.mem_cons_self p rest) rid hb hrr.symm
        | none => rfl
      · rw [if_neg hp]
    rw [hone]
    exact ih fun p2 hp2 => h p2 (List.mem_cons_of_mem p hp2)

theorem posAdjust_fresh (bySource : List (String × Nat))
    (spend : List (String × ℚ)) (r : SummaryRec)
    (h : ∀ q ∈ bySource, q.2 ≠ r.rid) :
    posAdjust bySource spend r = r := by
  refine posAdjust_skip bySource spend r ?_
  intro p _ rid hb
  exact h (p.1, rid) (getEntry_mem bySource p.1 rid hb)

theorem zeroAdjustOne_skip (spend : List (String × ℚ)) (q : String × Nat)
    (r : SummaryRec) (h : q.2 ≠ r.rid) : zeroAdjustOne spend q r = r := by
  unfold zeroAdjustOne
  match hs : getEntry spend q.1 with
  | none => exact if_neg fun he => h he.symm
  | some a =>
    show (if a = 0 then
        (if r.rid = q.2 then { r with adSpend := 0 } else r)
      else r) = r
    by_cases ha : a = 0
    · rw [if_pos ha, if_neg fun he => h he.symm]
    · rw [if_neg ha]

theorem zeroAdjust_fresh (spend : List (String × ℚ))
    (bySource : List (String × Nat)) (r : SummaryRec)
    (h : ∀ q ∈ bySource, q.2 ≠ r.rid) :
    zeroAdjust spend bySource r = r := by
  induction bySource with
  | nil => rfl
  | cons q rest ih =>
    unfold zeroAdjust
    simp only [List.foldl_cons]
    rw [zeroAdjustOne_skip spend q r (h q (List.mem_cons_self q rest))]
    exact ih fun q2 hq2 => h q2 (List.mem_cons_of_mem q hq2)

/-! ### The two write loops as maps over the table -/

theorem setAdSpend_map (tbl : List SummaryRec) (rid : Nat) (v : ℚ) :
    setAdSpend tbl rid v =
      tbl.map fun r => if r.rid = rid then { r with adSpend := v } else r :=
  rfl

theorem applyPositiveSpend_eq (mn yr : String)
    (bySource : List (String × Nat)) (spend : List (String × ℚ))
    (tbl : List SummaryRec) (fid : Nat)
    (hlt : ∀ q ∈ bySource, q.2 < fid) :
    applyPositiveSpend mn yr bySource spend (tbl, fid) =
      (tbl.map (posAdjust bySource spend) ++
          createdRecs mn yr bySource spend fid,
        fid + (createdRecs mn yr bySource spend fid).length) := by
  induction spend generalizing tbl fid with
  | nil =>
    unfold applyPositiveSpend createdRecs
    rw [map_self tbl (posAdjust bySource []) fun r _ => rfl]
    simp
  | cons p rest ih =>
    obtain ⟨ls, amt⟩ := p
    by_cases hp : 0 < amt
    · match hb : getEntry bySource ls with
      | some rid =>
        have hstep : applyPositiveSpend mn yr bySource ((ls, amt) :: rest)
            (tbl, fid) =
            applyPositiveSpend mn yr bySource rest
              (setAdSpend tbl rid amt, fid) := by
          simp only [applyPositiveSpend]
          rw [if_pos hp, hb] <;> rfl
        rw [hstep, ih (setAdSpend tbl rid amt) fid hlt]
        have hcreated : createdRecs mn yr bySource ((ls, amt) :: rest) fid =
            createdRecs mn yr bySource rest fid := by
          simp only [createdRecs]
          rw [if_pos hp, hb] <;> rfl
        rw [hcreated, setAdSpend_map, List.map_map]
        have hmapeq : tbl.map
              (posAdjust bySource rest ∘
                fun r => if r.rid = rid then { r with adSpend := amt } else r) =
            tbl.map (posAdjust bySource ((ls, amt) :: rest)) := by
          refine List.map_congr_left ?_
          intro r _
          show posAdjust bySource rest
              (if r.rid = rid then { r with adSpend := amt } else r) =
            posAdjust bySource ((ls, amt) :: rest) r
          unfold posAdjust
          simp only [List.foldl_cons]
          congr 1
          unfold posAdjustOne
          rw [if_pos hp, hb]
        rw [hmapeq]
      | none =>
        have hstep : applyPositiveSpend mn yr bySource ((ls, amt) :: rest)
            (tbl, fid) =
            applyPositiveSpend mn yr bySource rest
              (tbl ++ [⟨fid, mn, yr, some ls, 0, amt⟩], fid + 1) := by
          simp only [applyPositiveSpend]
          rw [if_pos hp, hb] <;> rfl
        have hih := ih (tbl ++ [(⟨fid, mn, yr, some ls, 0, amt⟩ : SummaryRec)])
          (fid + 1) fun q hq => Nat.lt_succ_of_lt (hlt q hq)
        rw [hstep, hih]
        have hcreated : createdRecs mn yr bySource ((ls, amt) :: rest) fid =
            ⟨fid, mn, yr, some ls, 0, amt⟩ ::
              createdRecs mn yr bySource rest (fid + 1) := by
          simp only [createdRecs]
          rw [if_pos hp, hb] <;> rfl
        rw [hcreated, List.map_append]
        have hnew : List.map (posAdjust bySource rest)
            [⟨fid, mn, yr, some ls, 0, amt⟩] =
            [(⟨fid, mn, yr, some ls, 0, amt⟩ : SummaryRec)] := by
          simp only [List.map_cons, List.map_nil]
          rw [posAdjust_fresh bySource rest _
            fun q hq => Nat.ne_of_lt (hlt q hq)]
        rw [hnew]
        have hmapeq : tbl.map (posAdjust bySource rest) =
            tbl.map (posAdjust bySource ((ls, amt) :: rest)) := by
          refine List.map_congr_left ?_
          intro r _
          show posAdjust bySource rest r =
            posAdjust bySource ((ls, amt) :: rest) r
          unfold posAdjust
          simp only [List.foldl_cons]
          congr 1
          unfold posAdjustOne
          rw [if_pos hp, hb]
        rw [hmapeq]
        simp only [Prod.mk.injEq]
        refine ⟨by rw [List.append_assoc]; rfl, ?_⟩
        simp only [List.length_cons]
        omega
    · have hstep : applyPositiveSpend mn yr bySource ((ls, amt) :: rest)
          (tbl, fid) =
          applyPositiveSpend mn yr bySource rest (tbl, fid) := by
        simp only [applyPositiveSpend]
        rw [if_neg hp] <;> rfl
      rw [hstep, ih tbl fid hlt]
      have hcreated : createdRecs mn yr bySource ((ls, amt) :: rest) fid =
          createdRecs mn yr bySource rest fid := by
        simp only [createdRecs]
        rw [if_neg hp] <;> rfl
      rw [hcreated]
      have hmapeq : tbl.map (posAdjust bySource rest) =
          tbl.map (posAdjust bySource ((ls, amt) :: rest)) := by
        refine List.map_congr_left ?_
        intro r _
        show posAdjust bySource rest r =
          posAdjust bySource ((ls, amt) :: rest) r
        unfold posAdjust
        simp only [List.foldl_cons]
        congr 1
        unfold posAdjustOne
        rw [if_neg hp]
      rw [hmapeq]

theorem zeroAdjustOne_absent (spend : List (String × ℚ)) (q : String × Nat)
    (r : SummaryRec) (hs : getEntry spend q.1 = none) :
    zeroAdjustOne spend q r =
      if r.rid = q.2 then { r with adSpend := 0 } else r := by
  unfold zeroAdjustOne
  rw [hs]

theorem zeroAdjustOne_zero (spend : List (String × ℚ)) (q : String × Nat)
    (r : SummaryRec) (a : ℚ) (hs : getEntry spend q.1 = some a)
    (ha : a = 0) :
    zeroAdjustOne spend q r =
      if r.rid = q.2 then { r with adSpend := 0 } else r := by
  unfold zeroAdjustOne
  rw [hs]
  exact if_pos ha

theorem zeroAdjustOne_pos (spend : List (String × ℚ)) (q : String × Nat)
    (r : SummaryRec) (a : ℚ) (hs : getEntry spend q.1 = some a)
    (ha : ¬ a = 0) : zeroAdjustOne spend q r = r := by
  unfold zeroAdjustOne
  rw [hs]
  exact if_neg ha

theorem zeroStale_eq (spend : List (String × ℚ))
    (bySource : List (String × Nat)) (tbl : List SummaryRec) :
    zeroStale spend bySource tbl = tbl.map (zeroAdjust spend bySource) := by
  induction bySource generalizing tbl with
  | nil =>
    unfold zeroStale
    rw [map_self tbl (zeroAdjust spend []) fun r _ => rfl]
  | cons q rest ih =>
    obtain ⟨ls, rid⟩ := q
    have hone : zeroStale spend ((ls, rid) :: rest) tbl =
        zeroStale spend rest
          (tbl.map fun r => zeroAdjustOne spend (ls, rid) r) := by
      simp only [zeroStale]
      match hs : getEntry spend ls with
      | none =>
        show zeroStale spend rest (setAdSpend tbl rid 0) = _
        congr 1
        rw [setAdSpend_map]
        refine List.map_congr_left ?_
        intro r _
        rw [zeroAdjustOne_absent spend (ls, rid) r hs]
      | some a =>
        show (if a = 0 then zeroStale spend rest (setAdSpend tbl rid 0)
            else zeroStale spend rest tbl) = _
        by_cases ha : a = 0
        · rw [if_pos ha]
          congr 1
          rw [setAdSpend_map]
          refine List.map_congr_left ?_
          intro r _
          rw [zeroAdjustOne_zero spend (ls, rid) r a hs ha]
        · rw [if_neg ha]
          congr 1
          have hmap : tbl.map (fun r => zeroAdjustOne spend (ls, rid) r) =
              tbl := by
            refine map_self _ _ ?_
            intro r _
            exact zeroAdjustOne_pos spend (ls, rid) r a hs ha
          rw [hmap]
    rw [hone, ih, List.map_map]
    refine List.map_congr_left ?_
    intro r _
    rfl

/-! ### Facts about the created records -/

theorem createdRecs_mem (mn yr : String) (bySource : List (String × Nat))
    (spend : List (String × ℚ)) (fid : Nat) (c : SummaryRec)
    (hc : c ∈ createdRecs mn yr bySource spend fid) :
    ∃ k a, (k, a) ∈ spend ∧ 0 < a ∧ getEntry bySource k = none ∧
      c.month = mn ∧ c.year = yr ∧ c.leadSource = some k ∧
      c.totalRevenue = 0 ∧ c.adSpend = a ∧ fid ≤ c.rid := by
  induction spend generalizing fid with
  | nil => simp [createdRecs] at hc
  | cons p rest ih =>
    obtain ⟨ls, amt⟩ := p
    by_cases hp : 0 < amt
    · match hb : getEntry bySource ls with
      | some rid =>
        have hc2 : c ∈ createdRecs mn yr bySource rest fid := by
          have he : createdRecs mn yr bySource ((ls, amt) :: rest) fid =
              createdRecs mn yr bySource rest fid := by
            simp only [createdRecs]
            rw [if_pos hp, hb] <;> rfl
          rw [← he]
          exact hc
        obtain ⟨k, a, hmem, h2, h3, h4, h5, h6, h7, h8, h9⟩ := ih fid hc2
        exact ⟨k, a, List.mem_cons_of_mem _ hmem, h2, h3, h4, h5, h6, h7,
          h8, h9⟩
      | none =>
        have he : createdRecs mn yr bySource ((ls, amt) :: rest) fid =
            ⟨fid, mn, yr, some ls, 0, amt⟩ ::
              createdRecs mn yr bySource rest (fid + 1) := by
          simp only [createdRecs]
          rw [if_pos hp, hb] <;> rfl
        rw [he] at hc
        rcases List.mem_cons.mp hc with rfl | hc2
        · exact ⟨ls, amt, List.mem_cons_self _ _, hp, hb, rfl, rfl, rfl,
            rfl, rfl, le_refl _⟩
        · obtain ⟨k, a, hmem, h2, h3, h4, h5, h6, h7, h8, h9⟩ :=
            ih (fid + 1) hc2
          exact ⟨k, a, List.mem_cons_of_mem _ hmem, h2, h3, h4, h5, h6, h7,
            h8, Nat.le_of_succ_le h9⟩
    · have he : createdRecs mn yr bySource ((ls, amt) :: rest) fid =
          createdRecs mn yr bySource rest fid := by
        simp only [createdRecs]
        rw [if_neg hp] <;> rfl
      rw [he] at hc
      obtain ⟨k, a, hmem, h2, h3, h4, h5, h6, h7, h8, h9⟩ := ih fid hc
      exact ⟨k, a, List.mem_cons_of_mem _ hmem, h2, h3, h4, h5, h6, h7,
        h8, h9⟩

theorem createdRecs_length_le (mn yr : String)
    (bySource : List (String × Nat)) (spend : List (String × ℚ))
    (fid : Nat) :
    (createdRecs mn yr bySource spend fid).length ≤ spend.length := by
  induction spend generalizing fid with
  | nil => simp [createdRecs]
  | cons p rest ih =>
    obtain ⟨ls, amt⟩ := p
    by_cases hp : 0 < amt
    · match hb : getEntry bySource ls with
      | some rid =>
        have he : createdRecs mn yr bySource ((ls, amt) :: rest) fid =
            createdRecs mn yr bySource rest fid := by
          simp only [createdRecs]
          rw [if_pos hp, hb] <;> rfl
        rw [he]
        exact Nat.le_succ_of_le (ih fid)
      | none =>
        have he : createdRecs mn yr bySource ((ls, amt) :: rest) fid =
            ⟨fid, mn, yr, some ls, 0, amt⟩ ::
              createdRecs mn yr bySource rest (fid + 1) := by
          simp only [createdRecs]
          rw [if_pos hp, hb] <;> rfl
        rw [he]
        simpa using ih (fid + 1)
    · have he : createdRecs mn yr bySource ((ls, amt) :: rest) fid =
          createdRecs mn yr bySource rest fid := by
        simp only [createdRecs]
        rw [if_neg hp] <;> rfl
      rw [he]
      exact Nat.le_succ_of_le (ih fid)

theorem createdRecs_rid_lt (mn yr : String)
    (bySource : List (String × Nat)) (spend : List (String × ℚ))
    (fid : Nat) (c : SummaryRec)
    (hc : c ∈ createdRecs mn yr bySource spend fid) :
    c.rid < fid + (createdRecs mn yr bySource spend fid).length := by
  induction spend generalizing fid with
  | nil => simp [createdRecs] at hc
  | cons p rest ih =>
    obtain ⟨ls, amt⟩ := p
    by_cases hp : 0 < amt
    · match hb : getEntry bySource ls with
      | some rid =>
        have he : createdRecs mn yr bySource ((ls, amt) :: rest) fid =
            createdRecs mn yr bySource rest fid := by
          simp only [createdRecs]
          rw [if_pos hp, hb] <;> rfl
        rw [he] at hc ⊢
        exact ih fid hc
      | none =>
        have he : createdRecs mn yr bySource ((ls, amt) :: rest) fid =
            ⟨fid, mn, yr, some ls, 0, amt⟩ ::
              createdRecs mn yr bySource rest (fid + 1) := by
          simp only [createdRecs]
          rw [if_pos hp, hb] <;> rfl
        rw [he] at hc ⊢
        simp only [List.length_cons]
        rcases List.mem_cons.mp hc with rfl | hc2
        · show fid < fid + _
          omega
        · have := ih (fid + 1) hc2
          omega
    · have he : createdRecs mn yr bySource ((ls, amt) :: rest) fid =
          createdRecs mn yr bySource rest fid := by
        simp only [createdRecs]
        rw [if_neg hp] <;> rfl
      rw [he] at hc ⊢
      exact ih fid hc

theorem createdRecs_rid_nodup (mn yr : String)
    (bySource : List (String × Nat)) (spend : List (String × ℚ))
    (fid : Nat) :
    ((createdRecs mn yr bySource spend fid).map (·.rid)).Nodup := by
  induction spend generalizing fid with
  | nil => simp [createdRecs]
  | cons p rest ih =>
    obtain ⟨ls, amt⟩ := p
    by_cases hp : 0 < amt
    · match hb : getEntry bySource ls with
      | some rid =>
        have he : createdRecs mn yr bySource ((ls, amt) :: rest) fid =
            createdRecs mn yr bySource rest fid := by
          simp only [createdRecs]
          rw [if_pos hp, hb] <;> rfl
        rw [he]
        exact ih fid
      | none =>
        have he : createdRecs mn yr bySource ((ls, amt) :: rest) fid =
            ⟨fid, mn, yr, some ls, 0, amt⟩ ::
              createdRecs mn yr bySource rest (fid + 1) := by
          simp only [createdRecs]
          rw [if_pos hp, hb] <;> rfl
        rw [he]
        simp only [List.map_cons, List.nodup_cons]
        refine ⟨?_, ih (fid + 1)⟩
        intro hmem
        obtain ⟨c, hc, hce⟩ := List.mem_map.mp hmem
        obtain ⟨_, _, _, _, _, _, _, _, _, _, hge⟩ :=
          createdRecs_mem mn yr bySource rest (fid + 1) c hc
        omega
    · have he : createdRecs mn yr bySource ((ls, amt) :: rest) fid =
          createdRecs mn yr bySource rest fid := by
        simp only [createdRecs]
        rw [if_neg hp] <;> rfl
      rw [he]
      exact ih fid

theorem createdRecs_key_mem (mn yr : String)
    (bySource : List (String × Nat)) (spend : List (String × ℚ))
    (fid : Nat) (k : String) (a : ℚ) (hmem : (k, a) ∈ spend) (hpos : 0 < a)
    (hb : getEntry bySource k = none)
    (hnd : (spend.map (·.1)).Nodup) :
    ∃ c ∈ createdRecs mn yr bySource spend fid, c.leadSource = some k := by
  induction spend generalizing fid with
  | nil => simp at hmem
  | cons p rest ih =>
    obtain ⟨ls, amt⟩ := p
    rcases List.mem_cons.mp hmem with heq | hmem2
    · obtain ⟨rfl, rfl⟩ := Prod.mk.injEq .. ▸ heq
      have he : createdRecs mn yr bySource ((k, a) :: rest) fid =
          ⟨fid, mn, yr, some k, 0, a⟩ ::
            createdRecs mn yr bySource rest (fid + 1) := by
        simp only [createdRecs]
        rw [if_pos hpos, hb] <;> rfl
      rw [he]
      exact ⟨⟨fid, mn, yr, some k, 0, a⟩, List.mem_cons_self _ _, rfl⟩
    · have hnd2 : (rest.map (·.1)).Nodup := by
        simp only [List.map_cons, List.nodup_cons] at hnd
        exact hnd.2
      by_cases hp : 0 < amt
      · match hb2 : getEntry bySource ls with
        | some rid =>
          have he : createdRecs mn yr bySource ((ls, amt) :: rest) fid =
              createdRecs mn yr bySource rest fid := by
            simp only [createdRecs]
            rw [if_pos hp, hb2] <;> rfl
          rw [he]
          exact ih fid hmem2 hnd2
        | none =>
          have he : createdRecs mn yr bySource ((ls, amt) :: rest) fid =
              ⟨fid, mn, yr, some ls, 0, amt⟩ ::
                createdRecs mn yr bySource rest (fid + 1) := by
            simp only [createdRecs]
            rw [if_pos hp, hb2] <;> rfl
          rw [he]
          obtain ⟨c2, hc2, hck2⟩ := ih (fid + 1) hmem2 hnd2
          exact ⟨c2, List.mem_cons_of_mem _ hc2, hck2⟩
      · have he : createdRecs mn yr bySource ((ls, amt) :: rest) fid =
            createdRecs mn yr bySource rest fid := by
          simp only [createdRecs]
          rw [if_neg hp] <;> rfl
        rw [he]
        exact ih fid hmem2 hnd2

theorem createdRecs_nil_of_covered (mn yr : String)
    (bySource : List (String × Nat)) (spend : List (String × ℚ))
    (fid : Nat)
    (h : ∀ p ∈ spend, 0 < p.2 → getEntry bySource p.1 ≠ none) :
    createdRecs mn yr bySource spend fid = [] := by
  induction spend generalizing fid with
  | nil => rfl
  | cons p rest ih =>
    obtain ⟨ls, amt⟩ := p
    by_cases hp : 0 < amt
    · match hb : getEntry bySource ls with
      | some rid =>
        have he : createdRecs mn yr bySource ((ls, amt) :: rest) fid =
            createdRecs mn yr bySource rest fid := by
          simp only [createdRecs]
          rw [if_pos hp, hb] <;> rfl
        rw [he]
        exact ih fid fun p2 hp2 => h p2 (List.mem_cons_of_mem _ hp2)
      | none =>
        exact absurd hb (h (ls, amt) (List.mem_cons_self _ _) hp)
    · have he : createdRecs mn yr bySource ((ls, amt) :: rest) fid =
          createdRecs mn yr bySource rest fid := by
        simp only [createdRecs]
        rw [if_neg hp] <;> rfl
      rw [he]
      exact ih fid fun p2 hp2 => h p2 (List.mem_cons_of_mem _ hp2)

theorem createdRecs_ls_nodup (mn yr : String)
    (bySource : List (String × Nat)) (spend : List (String × ℚ))
    (fid : Nat) (hnd : (spend.map (·.1)).Nodup) :
    ((createdRecs mn yr bySource spend fid).filterMap (·.leadSource)).Nodup := by
  induction spend generalizing fid with
  | nil => simp [createdRecs]
  | cons p rest ih =>
    obtain ⟨ls, amt⟩ := p
    have hnd2 : (rest.map (·.1)).Nodup := by
      simp only [List.map_cons, List.nodup_cons] at hnd
      exact hnd.2
    by_cases hp : 0 < amt
    · match hb : getEntry bySource ls with
      | some rid =>
        have he : createdRecs mn yr bySource ((ls, amt) :: rest) fid =
            createdRecs mn yr bySource rest fid := by
          simp only [createdRecs]
          rw [if_pos hp, hb] <;> rfl
        rw [he]
        exact ih fid hnd2
      | none =>
        have he : createdRecs mn yr bySource ((ls, amt) :: rest) fid =
            ⟨fid, mn, yr, some ls, 0, amt⟩ ::
              createdRecs mn yr bySource rest (fid + 1) := by
          simp only [createdRecs]
          rw [if_pos hp, hb] <;> rfl
        rw [he]
        simp only [List.filterMap_cons]
        show (ls :: _).Nodup
        rw [List.nodup_cons]
        refine ⟨?_, ih (fid + 1) hnd2⟩
        intro hmem
        obtain ⟨c, hc, hce⟩ := List.mem_filterMap.mp hmem
        obtain ⟨k, a, hk, _, _, _, _, hck, _, _, _⟩ :=
          createdRecs_mem mn yr bySource rest (fid + 1) c hc
        rw [hck] at hce
        have hkls : k = ls := Option.some.inj hce
        simp only [List.map_cons, List.nodup_cons] at hnd
        exact hnd.1 (List.mem_map.mpr ⟨(k, a), hk, hkls⟩)
    · have he : createdRecs mn yr bySource ((ls, amt) :: rest) fid =
          createdRecs mn yr bySource rest fid := by
        simp only [createdRecs]
        rw [if_neg hp] <;> rfl
      rw [he]
      exact ih fid hnd2

/-! ### Pointwise characterisation of the two loops on one record -/

theorem posAdjust_lookup (bySource : List (String × Nat))
    (spend : List (String × ℚ)) (r : SummaryRec) (ls : String)
    (hlook : getEntry bySource ls = some r.rid)
    (huniq : ∀ k, getEntry bySource k = some r.rid → k = ls)
    (hnd : (spend.map (·.1)).Nodup) :
    posAdjust bySource spend r =
      match getEntry spend ls with
      | some a => if 0 < a then { r with adSpend := a } else r
      | none => r := by
  induction spend with
  | nil => rfl
  | cons p rest ih =>
    obtain ⟨k, a⟩ := p
    have hnd2 : (rest.map (·.1)).Nodup := by
      simp only [List.map_cons, List.nodup_cons] at hnd
      exact hnd.2
    by_cases hk : k = ls
    · subst hk
      have hget : getEntry ((k, a) :: rest) k = some a := by
        unfold getEntry
        rw [if_pos (by simp)]
      rw [hget]
      have hknotin : ∀ p2 ∈ rest, p2.1 ≠ k := by
        intro p2 hp2 he
        simp only [List.map_cons, List.nodup_cons] at hnd
        exact hnd.1 (List.mem_map.mpr ⟨p2, hp2, he⟩)
      by_cases hp : 0 < a
      · unfold posAdjust
        simp only [List.foldl_cons]
        have hone : posAdjustOne bySource (k, a) r =
            { r with adSpend := a } := by
          unfold posAdjustOne
          rw [if_pos hp, hlook]
          exact if_pos rfl
        rw [hone]
        have hrest : posAdjust bySource rest { r with adSpend := a } =
            { r with adSpend := a } := by
          refine posAdjust_skip bySource rest _ ?_
          intro p2 hp2 rid hb hre
          exact hknotin p2 hp2 (huniq p2.1 (by rw [hb, hre]))
        show posAdjust bySource rest { r with adSpend := a } = _
        rw [hrest]
        exact (if_pos hp).symm
      · unfold posAdjust
        simp only [List.foldl_cons]
        have hone : posAdjustOne bySource (k, a) r = r := by
          unfold posAdjustOne
          rw [if_neg hp]
        rw [hone]
        have hrest : posAdjust bySource rest r = r := by
          refine posAdjust_skip bySource rest _ ?_
          intro p2 hp2 rid hb hre
          exact hknotin p2 hp2 (huniq p2.1 (by rw [hb, hre]))
        show posAdjust bySource rest r = _
        rw [hrest]
        exact (if_neg hp).symm
    · have hget : getEntry ((k, a) :: rest) ls = getEntry rest ls := by
        show (if (k == ls) = true then some a else getEntry rest ls) =
          getEntry rest ls
        rw [if_neg (by simpa using hk)]
      rw [hget]
      unfold posAdjust
      simp only [List.foldl_cons]
      have hone : posAdjustOne bySource (k, a) r = r := by
        unfold posAdjustOne
        by_cases hp : 0 < a
        · rw [if_pos hp]
          match hb : getEntry bySource k with
          | some rid =>
            exact if_neg fun hre => hk (huniq k (by rw [hb, ← hre]))
          | none => rfl
        · rw [if_neg hp]
      rw [hone]
      exact ih hnd2

theorem zeroAdjust_keep (spend : List (String × ℚ))
    (bySource : List (String × Nat)) (r2 : SummaryRec) (ls : String)
    (huniq : ∀ q ∈ bySource, q.2 = r2.rid → q.1 = ls)
    (hfalsy : getEntry spend ls = none ∨ getEntry spend ls = some 0)
    (hz : r2.adSpend = 0) :
    zeroAdjust spend bySource r2 = r2 := by
  induction bySource with
  | nil => rfl
  | cons q rest ih =>
    unfold zeroAdjust
    simp only [List.foldl_cons]
    have htail : ∀ q2 ∈ rest, q2.2 = r2.rid → q2.1 = ls :=
      fun q2 hq2 => huniq q2 (List.mem_cons_of_mem _ hq2)
    by_cases hq : q.2 = r2.rid
    · have hq1 : q.1 = ls := huniq q (List.mem_cons_self q rest) hq
      have hone : zeroAdjustOne spend q r2 = r2 := by
        rcases hfalsy with hf | hf
        · rw [zeroAdjustOne_absent spend q r2 (by rw [hq1]; exact hf),
            if_pos hq.symm]
          show ({ r2 with adSpend := 0 } : SummaryRec) = r2
          rw [← hz]
        · rw [zeroAdjustOne_zero spend q r2 0 (by rw [hq1]; exact hf) rfl,
            if_pos hq.symm]
          show ({ r2 with adSpend := 0 } : SummaryRec) = r2
          rw [← hz]
      rw [hone]
      exact ih htail
    · rw [zeroAdjustOne_skip spend q r2 hq]
      exact ih htail

theorem zeroAdjust_hits (spend : List (String × ℚ))
    (bySource : List (String × Nat)) (r : SummaryRec) (ls : String)
    (huniq : ∀ q ∈ bySource, q.2 = r.rid → q.1 = ls)
    (hfalsy : getEntry spend ls = none ∨ getEntry spend ls = some 0)
    (hin : (ls, r.rid) ∈ bySource) :
    zeroAdjust spend bySource r = { r with adSpend := 0 } := by
  induction bySource with
  | nil => simp at hin
  | cons q rest ih =>
    unfold zeroAdjust
    simp only [List.foldl_cons]
    have htail : ∀ q2 ∈ rest, q2.2 = r.rid → q2.1 = ls :=
      fun q2 hq2 => huniq q2 (List.mem_cons_of_mem _ hq2)
    by_cases hq : q.2 = r.rid
    · have hq1 : q.1 = ls := huniq q (List.mem_cons_self q rest) hq
      have hone : zeroAdjustOne spend q r = { r with adSpend := 0 } := by
        rcases hfalsy with hf | hf
        · rw [zeroAdjustOne_absent spend q r (by rw [hq1]; exact hf),
            if_pos hq.symm]
        · rw [zeroAdjustOne_zero spend q r 0 (by rw [hq1]; exact hf) rfl,
            if_pos hq.symm]
      rw [hone]
      exact zeroAdjust_keep spend rest { r with adSpend := 0 } ls htail
        hfalsy rfl
    · rw [zeroAdjustOne_skip spend q r hq]
      have hin2 : (ls, r.rid) ∈ rest := by
        rcases List.mem_cons.mp hin with he | h2
        · exact absurd (by rw [← he] : q.2 = r.rid).symm
            (fun h3 => hq h3.symm)
        · exact h2
      exact ih htail hin2

theorem zeroAdjust_nonfalsy (spend : List (String × ℚ))
    (bySource : List (String × Nat)) (r : SummaryRec) (ls : String) (a : ℚ)
    (huniq : ∀ q ∈ bySource, q.2 = r.rid → q.1 = ls)
    (hs : getEntry spend ls = some a) (ha : ¬ a = 0) :
    zeroAdjust spend bySource r = r := by
  induction bySource with
  | nil => rfl
  | cons q rest ih =>
    unfold zeroAdjust
    simp only [List.foldl_cons]
    have htail : ∀ q2 ∈ rest, q2.2 = r.rid → q2.1 = ls :=
      fun q2 hq2 => huniq q2 (List.mem_cons_of_mem _ hq2)
    by_cases hq : q.2 = r.rid
    · have hq1 : q.1 = ls := huniq q (List.mem_cons_self q rest) hq
      rw [zeroAdjustOne_pos spend q r a (by rw [hq1]; exact hs) ha]
      exact ih htail
    · rw [zeroAdjustOne_skip spend q r hq]
      exact ih htail

theorem targetSpend_idem (spend : List (String × ℚ)) (ls : Option String)
    (cur : ℚ) :
    targetSpend spend ls (targetSpend spend ls cur) =
      targetSpend spend ls cur := by
  match ls with
  | none => rfl
  | some l =>
    simp only [targetSpend]
    match hs : getEntry spend l with
    | none => rfl
    | some a =>
      by_cases hp : 0 < a
      · simp [hp]
      · by_cases ha : a = 0
        · simp [hp, ha]
        · simp [hp, ha]

theorem adjustRec_rid (mn yr : String) (spend : List (String × ℚ))
    (r : SummaryRec) : (adjustRec mn yr spend r).rid = r.rid := by
  unfold adjustRec
  split <;> rfl

theorem adjustRec_month (mn yr : String) (spend : List (String × ℚ))
    (r : SummaryRec) : (adjustRec mn yr spend r).month = r.month := by
  unfold adjustRec
  split <;> rfl

theorem adjustRec_year (mn yr : String) (spend : List (String × ℚ))
    (r : SummaryRec) : (adjustRec mn yr spend r).year = r.year := by
  unfold adjustRec
  split <;> rfl

theorem adjustRec_leadSource (mn yr : String) (spend : List (String × ℚ))
    (r : SummaryRec) :
    (adjustRec mn yr spend r).leadSource = r.leadSource := by
  unfold adjustRec
  split <;> rfl

theorem inPeriod_adjustRec (mn yr : String) (spend : List (String × ℚ))
    (r : SummaryRec) :
    inPeriod mn yr (adjustRec mn yr spend r) = inPeriod mn yr r := by
  unfold inPeriod
  rw [adjustRec_month, adjustRec_year]

theorem adjustRec_idem (mn yr : String) (spend : List (String × ℚ))
    (r : SummaryRec) :
    adjustRec mn yr spend (adjustRec mn yr spend r) =
      adjustRec mn yr spend r := by
  have hip : ∀ x : ℚ, inPeriod mn yr { r with adSpend := x } =
      inPeriod mn yr r := fun x => rfl
  by_cases h : inPeriod mn yr r = true
  · simp [adjustRec, h, hip, targetSpend_idem]
  · simp [adjustRec, h, hip]

/-! ### Reduction rules for `targetSpend` and `adjustRec` -/

theorem targetSpend_some_pos (spend : List (String × ℚ)) (l : String)
    (a cur : ℚ) (hsp : getEntry spend l = some a) (hp : 0 < a) :
    targetSpend spend (some l) cur = a := by
  simp only [targetSpend, hsp]
  rw [if_pos hp]

theorem targetSpend_some_zero (spend : List (String × ℚ)) (l : String)
    (a cur : ℚ) (hsp : getEntry spend l = some a) (ha : a = 0) :
    targetSpend spend (some l) cur = 0 := by
  simp only [targetSpend, hsp]
  rw [if_neg (by simp [ha]), if_pos ha]

theorem targetSpend_some_neg (spend : List (String × ℚ)) (l : String)
    (a cur : ℚ) (hsp : getEntry spend l = some a) (hp : ¬ 0 < a)
    (ha : ¬ a = 0) : targetSpend spend (some l) cur = cur := by
  simp only [targetSpend, hsp]
  rw [if_neg hp, if_neg ha]

theorem targetSpend_absent (spend : List (String × ℚ)) (l : String)
    (cur : ℚ) (hsp : getEntry spend l = none) :
    targetSpend spend (some l) cur = 0 := by
  simp only [targetSpend, hsp]

theorem adjustRec_in (mn yr : String) (spend : List (String × ℚ))
    (r : SummaryRec) (hper : inPeriod mn yr r = true) :
    adjustRec mn yr spend r =
      { r with adSpend := targetSpend spend r.leadSource r.adSpend } := by
  unfold adjustRec
  rw [if_pos hper]

theorem adjustRec_out (mn yr : String) (spend : List (String × ℚ))
    (r : SummaryRec) (hper : ¬ inPeriod mn yr r = true) :
    adjustRec mn yr spend r = r := by
  unfold adjustRec
  rw [if_neg hper]

/-! ### One refresh, characterised -/

/-- The full characterisation of one v3 refresh on a well-formed table:
every pre-existing record is adjusted pointwise by `adjustRec`, and the
created records are appended, with sequential fresh ids. -/
theorem applyAdSpendV3_char (tbl : List SummaryRec) (fid : Nat)
    (mn yr : String) (spend : List (String × ℚ))
    (HP : (tbl.filter (inPeriod mn yr)).length ≤ 100)
    (HS : ((tbl.filter (inPeriod mn yr)).filterMap (·.leadSource)).Nodup)
    (HI : (tbl.map (·.rid)).Nodup)
    (HF : ∀ r ∈ tbl, r.rid < fid)
    (HK : (spend.map (·.1)).Nodup) :
    applyAdSpendV3 tbl fid mn yr spend =
      (tbl.map (adjustRec mn yr spend) ++
          createdRecs mn yr (buildBySource (periodPage tbl mn yr)) spend fid,
        fid + (createdRecs mn yr (buildBySource (periodPage tbl mn yr))
          spend fid).length) := by
  have hpage : periodPage tbl mn yr = tbl.filter (inPeriod mn yr) := by
    unfold periodPage
    exact List.take_of_length_le HP
  have hpagend_ls : ((periodPage tbl mn yr).filterMap (·.leadSource)).Nodup := by
    rw [hpage]
    exact HS
  have hBmem : ∀ q ∈ buildBySource (periodPage tbl mn yr),
      ∃ rp ∈ periodPage tbl mn yr,
        rp.leadSource = some q.1 ∧ rp.rid = q.2 :=
    buildBySource_mem _ hpagend_ls
  have hpage_sub : ∀ rp ∈ periodPage tbl mn yr, rp ∈ tbl := by
    intro rp hrp
    rw [hpage] at hrp
    exact List.mem_of_mem_filter hrp
  have hpage_per : ∀ rp ∈ periodPage tbl mn yr, inPeriod mn yr rp = true := by
    intro rp hrp
    rw [hpage] at hrp
    exact (List.mem_filter.mp hrp).2
  have hpagenid : ((periodPage tbl mn yr).map (·.rid)).Nodup := by
    rw [hpage]
    exact HI.sublist (List.Sublist.map (·.rid) (List.filter_sublist tbl))
  have hBlt : ∀ q ∈ buildBySource (periodPage tbl mn yr), q.2 < fid := by
    intro q hq
    obtain ⟨rp, hrp, _, hrid⟩ := hBmem q hq
    rw [← hrid]
    exact HF rp (hpage_sub rp hrp)
  have hunfold : applyAdSpendV3 tbl fid mn yr spend =
      (zeroStale spend (buildBySource (periodPage tbl mn yr))
          (applyPositiveSpend mn yr (buildBySource (periodPage tbl mn yr))
            spend (tbl, fid)).1,
        (applyPositiveSpend mn yr (buildBySource (periodPage tbl mn yr))
          spend (tbl, fid)).2) := rfl
  rw [hunfold,
    applyPositiveSpend_eq mn yr (buildBySource (periodPage tbl mn yr))
      spend tbl fid hBlt]
  rw [zeroStale_eq, List.map_append]
  have hcreatedmap : (createdRecs mn yr
        (buildBySource (periodPage tbl mn yr)) spend fid).map
        (zeroAdjust spend (buildBySource (periodPage tbl mn yr))) =
      createdRecs mn yr (buildBySource (periodPage tbl mn yr)) spend fid := by
    refine map_self _ _ ?_
    intro c hc
    obtain ⟨k, a, _, _, _, _, _, _, _, _, hge⟩ :=
      createdRecs_mem mn yr _ spend fid c hc
    refine zeroAdjust_fresh spend _ c ?_
    intro q hq
    have := hBlt q hq
    omega
  have hmappart : (tbl.map
        (posAdjust (buildBySource (periodPage tbl mn yr)) spend)).map
        (zeroAdjust spend (buildBySource (periodPage tbl mn yr))) =
      tbl.map (adjustRec mn yr spend) := by
    rw [List.map_map]
    refine List.map_congr_left ?_
    intro r hr
    show zeroAdjust spend (buildBySource (periodPage tbl mn yr))
        (posAdjust (buildBySource (periodPage tbl mn yr)) spend r) =
      adjustRec mn yr spend r
    by_cases hper : inPeriod mn yr r = true
    · have hrpage : r ∈ periodPage tbl mn yr := by
        rw [hpage]
        exact List.mem_filter.mpr ⟨hr, hper⟩
      match hls : r.leadSource with
      | none =>
        have hnotin : ∀ q ∈ buildBySource (periodPage tbl mn yr),
            q.2 ≠ r.rid := by
          intro q hq he
          obtain ⟨rp, hrp, hlsq, hrid⟩ := hBmem q hq
          have heq : rp = r :=
            List.inj_on_of_nodup_map HI (hpage_sub rp hrp) hr
              (by rw [hrid, he])
          rw [heq, hls] at hlsq
          simp at hlsq
        rw [posAdjust_fresh _ spend r hnotin,
          zeroAdjust_fresh spend _ r hnotin, adjustRec_in mn yr spend r hper]
        have ht : targetSpend spend r.leadSource r.adSpend = r.adSpend := by
          rw [hls]
          rfl
        rw [ht]
      | some l =>
        have hlook : getEntry (buildBySource (periodPage tbl mn yr)) l =
            some r.rid :=
          buildBySource_lookup _ hpagend_ls hpagenid r l hrpage hls
        have huniq : ∀ k, getEntry (buildBySource (periodPage tbl mn yr)) k =
            some r.rid → k = l := by
          intro k hk
          obtain ⟨rp, hrp, hlsq, hrid⟩ :=
            hBmem (k, r.rid) (getEntry_mem _ k r.rid hk)
          have heq : rp = r :=
            List.inj_on_of_nodup_map HI (hpage_sub rp hrp) hr hrid
          rw [heq, hls] at hlsq
          exact (Option.some.inj hlsq).symm
        have hquniq : ∀ q ∈ buildBySource (periodPage tbl mn yr),
            q.2 = r.rid → q.1 = l := by
          intro q hq he
          obtain ⟨rp, hrp, hlsq, hrid⟩ := hBmem q hq
          have heq : rp = r :=
            List.inj_on_of_nodup_map HI (hpage_sub rp hrp) hr
              (by rw [hrid, he])
          rw [heq, hls] at hlsq
          exact (Option.some.inj hlsq).symm
        have hBin : (l, r.rid) ∈ buildBySource (periodPage tbl mn yr) :=
          getEntry_mem _ l r.rid hlook
        rw [posAdjust_lookup _ spend r l hlook huniq HK,
          adjustRec_in mn yr spend r hper]
        match hsp : getEntry spend l with
        | some a =>
          by_cases hp : 0 < a
          · show zeroAdjust spend (buildBySource (periodPage tbl mn yr))
                (if 0 < a then { r with adSpend := a } else r) = _
            have ht : targetSpend spend r.leadSource r.adSpend = a := by
              rw [hls]
              exact targetSpend_some_pos spend l a r.adSpend hsp hp
            rw [if_pos hp,
              zeroAdjust_nonfalsy spend (buildBySource (periodPage tbl mn yr))
                { r with adSpend := a } l a (fun q hq he => hquniq q hq he)
                hsp (by intro he; rw [he] at hp; exact lt_irrefl 0 hp),
              ht]
          · by_cases ha : a = 0
            · show zeroAdjust spend (buildBySource (periodPage tbl mn yr))
                  (if 0 < a then { r with adSpend := a } else r) = _
              have ht : targetSpend spend r.leadSource r.adSpend = 0 := by
                rw [hls]
                exact targetSpend_some_zero spend l a r.adSpend hsp ha
              rw [if_neg hp,
                zeroAdjust_hits spend _ r l hquniq (Or.inr (ha ▸ hsp)) hBin,
                ht]
            · show zeroAdjust spend (buildBySource (periodPage tbl mn yr))
                  (if 0 < a then { r with adSpend := a } else r) = _
              have ht : targetSpend spend r.leadSource r.adSpend =
                  r.adSpend := by
                rw [hls]
                exact targetSpend_some_neg spend l a r.adSpend hsp hp ha
              rw [if_neg hp,
                zeroAdjust_nonfalsy spend _ r l a hquniq hsp ha, ht]
        | none =>
          show zeroAdjust spend (buildBySource (periodPage tbl mn yr)) r = _
          have ht : targetSpend spend r.leadSource r.adSpend = 0 := by
            rw [hls]
            exact targetSpend_absent spend l r.adSpend hsp
          rw [zeroAdjust_hits spend _ r l hquniq (Or.inl hsp) hBin, ht]
    · have hnotin : ∀ q ∈ buildBySource (periodPage tbl mn yr),
          q.2 ≠ r.rid := by
        intro q hq he
        obtain ⟨rp, hrp, hlsq, hrid⟩ := hBmem q hq
        have heq : rp = r :=
          List.inj_on_of_nodup_map HI (hpage_sub rp hrp) hr
            (by rw [hrid, he])
        have hrpper := hpage_per rp hrp
        rw [heq] at hrpper
        exact hper hrpper
      rw [posAdjust_fresh _ spend r hnotin,
        zeroAdjust_fresh spend _ r hnotin, adjustRec_out mn yr spend r hper]
  rw [hcreatedmap, hmappart]

/-- C5: after a refresh, no stale spend survives: every summary record of
the refreshed period whose lead source has zero or no spend in the current
input holds ad spend 0 in the resulting table. Hypotheses: the period's
records fit in the 100-record page, lead sources are unique within the
period, record ids are unique, fresh ids are above all existing ones, and
the input map has unique keys (automatic for `Object.entries` of a JS
object). -/
theorem adSpend_refresh_zeroing (tbl : List SummaryRec) (fid : Nat)
    (mn yr : String) (spend : List (String × ℚ))
    (HP : (tbl.filter (inPeriod mn yr)).length ≤ 100)
    (HS : ((tbl.filter (inPeriod mn yr)).filterMap (·.leadSource)).Nodup)
    (HI : (tbl.map (·.rid)).Nodup)
    (HF : ∀ r ∈ tbl, r.rid < fid)
    (HK : (spend.map (·.1)).Nodup) :
    ∀ r ∈ (applyAdSpendV3 tbl fid mn yr spend).1,
      inPeriod mn yr r = true →
      ∀ ls, r.leadSource = some ls →
      (getEntry spend ls = none ∨ getEntry spend ls = some 0) →
      r.adSpend = 0 := by
  intro r hrout hper ls hls hfalsy
  rw [applyAdSpendV3_char tbl fid mn yr spend HP HS HI HF HK] at hrout
  rcases List.mem_append.mp hrout with hmap | hcr
  · obtain ⟨r0, hr0, hre⟩ := List.mem_map.mp hmap
    by_cases hper0 : inPeriod mn yr r0 = true
    · rw [adjustRec_in mn yr spend r0 hper0] at hre
      subst hre
      have hls0 : r0.leadSource = some ls := hls
      show targetSpend spend r0.leadSource r0.adSpend = 0
      rcases hfalsy with hf | hf
      · rw [hls0]
        exact targetSpend_absent spend ls r0.adSpend hf
      · rw [hls0]
        exact targetSpend_some_zero spend ls 0 r0.adSpend hf rfl
    · rw [adjustRec_out mn yr spend r0 hper0] at hre
      subst hre
      exact absurd hper hper0
  · obtain ⟨k, a, hkmem, hpos, hbnone, _, _, hcls, _, hcsp, _⟩ :=
      createdRecs_mem mn yr _ spend fid r hcr
    rw [hcls] at hls
    obtain rfl := Option.some.inj hls
    have hget : getEntry spend k = some a :=
      getEntry_of_mem_nodup spend k a HK hkmem
    rcases hfalsy with hf | hf
    · rw [hget] at hf
      simp at hf
    · rw [hget] at hf
      obtain rfl := Option.some.inj hf
      exact absurd hpos (lt_irrefl 0)

/-- Running the v3 refresh twice with the same input, the second run
starting from the state after the first, leaves the table exactly as after
the first run. -/
theorem applyAdSpendV3_twice_eq (tbl : List SummaryRec) (fid : Nat)
    (mn yr : String) (spend : List (String × ℚ))
    (HP2 : (tbl.filter (inPeriod mn yr)).length + spend.length ≤ 100)
    (HS : ((tbl.filter (inPeriod mn yr)).filterMap (·.leadSource)).Nodup)
    (HI : (tbl.map (·.rid)).Nodup)
    (HF : ∀ r ∈ tbl, r.rid < fid)
    (HK : (spend.map (·.1)).Nodup) :
    (applyAdSpendV3 (applyAdSpendV3 tbl fid mn yr spend).1
        (applyAdSpendV3 tbl fid mn yr spend).2 mn yr spend).1 =
      (applyAdSpendV3 tbl fid mn yr spend).1 := by
  have HP : (tbl.filter (inPeriod mn yr)).length ≤ 100 := by omega
  have hpage : periodPage tbl mn yr = tbl.filter (inPeriod mn yr) := by
    unfold periodPage
    exact List.take_of_length_le HP
  have hchar := applyAdSpendV3_char tbl fid mn yr spend HP HS HI HF HK
  rw [hchar]
  show (applyAdSpendV3
      (tbl.map (adjustRec mn yr spend) ++
        createdRecs mn yr (buildBySource (periodPage tbl mn yr)) spend fid)
      (fid + (createdRecs mn yr (buildBySource (periodPage tbl mn yr))
        spend fid).length) mn yr spend).1 =
    tbl.map (adjustRec mn yr spend) ++
      createdRecs mn yr (buildBySource (periodPage tbl mn yr)) spend fid
  set C := createdRecs mn yr (buildBySource (periodPage tbl mn yr)) spend fid
    with hC
  set g := adjustRec mn yr spend with hg
  set T1 := tbl.map g ++ C with hT1
  have hCmem : ∀ c ∈ C, ∃ k a, (k, a) ∈ spend ∧ 0 < a ∧
      getEntry (buildBySource (periodPage tbl mn yr)) k = none ∧
      c.month = mn ∧ c.year = yr ∧ c.leadSource = some k ∧
      c.totalRevenue = 0 ∧ c.adSpend = a ∧ fid ≤ c.rid := by
    intro c hc
    rw [hC] at hc
    exact createdRecs_mem mn yr _ spend fid c hc
  have hCper : ∀ c ∈ C, inPeriod mn yr c = true := by
    intro c hc
    obtain ⟨k, a, _, _, _, hmn, hyrr, _, _, _, _⟩ := hCmem c hc
    unfold inPeriod
    rw [hmn, hyrr]
    simp
  have hfilter_map_g : (tbl.map g).filter (inPeriod mn yr) =
      (tbl.filter (inPeriod mn yr)).map g := by
    rw [List.filter_map]
    congr 1
    refine List.filter_congr ?_
    intro x _
    exact inPeriod_adjustRec mn yr spend x
  have hT1filter : T1.filter (inPeriod mn yr) =
      (tbl.filter (inPeriod mn yr)).map g ++ C := by
    rw [hT1, List.filter_append, hfilter_map_g,
      List.filter_eq_self.mpr hCper]
  have hClen : C.length ≤ spend.length := by
    rw [hC]
    exact createdRecs_length_le mn yr _ spend fid
  have HP1 : (T1.filter (inPeriod mn yr)).length ≤ 100 := by
    rw [hT1filter, List.length_append, List.length_map]
    omega
  have hlsmap : ((tbl.filter (inPeriod mn yr)).map g).filterMap
      (·.leadSource) = (tbl.filter (inPeriod mn yr)).filterMap
      (·.leadSource) := by
    rw [List.filterMap_map]
    refine filterMap_congr_mem _ _ _ ?_
    intro r _
    exact adjustRec_leadSource mn yr spend r
  have hCkeys_nodup : (C.filterMap (·.leadSource)).Nodup := by
    rw [hC]
    exact createdRecs_ls_nodup mn yr _ spend fid HK
  have hBkeys : (buildBySource (periodPage tbl mn yr)).map (·.1) =
      (tbl.filter (inPeriod mn yr)).filterMap (·.leadSource) := by
    rw [buildBySource_keys _ (by rw [hpage]; exact HS), hpage]
  have hCkeys_not_old : ∀ s ∈ C.filterMap (·.leadSource),
      s ∉ (tbl.filter (inPeriod mn yr)).filterMap (·.leadSource) := by
    intro s hsC hsold
    obtain ⟨c, hc, hcs⟩ := List.mem_filterMap.mp hsC
    obtain ⟨k, a, _, _, hbnone, _, _, hcls, _, _, _⟩ := hCmem c hc
    rw [hcls] at hcs
    obtain rfl := Option.some.inj hcs
    rw [← hBkeys] at hsold
    obtain ⟨v, hv⟩ := getEntry_isSome_of_key_mem _ _ hsold
    rw [hv] at hbnone
    simp at hbnone
  have HS1 : ((T1.filter (inPeriod mn yr)).filterMap (·.leadSource)).Nodup := by
    rw [hT1filter, List.filterMap_append, hlsmap, List.nodup_append]
    exact ⟨HS, hCkeys_nodup, fun s hs1 hs2 => hCkeys_not_old s hs2 hs1⟩
  have hridmap : (tbl.map g).map (·.rid) = tbl.map (·.rid) := by
    rw [List.map_map]
    refine List.map_congr_left ?_
    intro r _
    exact adjustRec_rid mn yr spend r
  have hCrid_ge : ∀ c ∈ C, fid ≤ c.rid := by
    intro c hc
    obtain ⟨_, _, _, _, _, _, _, _, _, _, hge⟩ := hCmem c hc
    exact hge
  have HI1 : (T1.map (·.rid)).Nodup := by
    rw [hT1, List.map_append, hridmap, List.nodup_append]
    refine ⟨HI, ?_, ?_⟩
    · rw [hC]
      exact createdRecs_rid_nodup mn yr _ spend fid
    · intro x hx1 hx2
      obtain ⟨r0, hr0, hre⟩ := List.mem_map.mp hx1
      obtain ⟨c, hc, hce⟩ := List.mem_map.mp hx2
      have h1 := HF r0 hr0
      have h2 := hCrid_ge c hc
      omega
  have HF1 : ∀ r ∈ T1, r.rid < fid + C.length := by
    intro r hr1
    rw [hT1] at hr1
    rcases List.mem_append.mp hr1 with hm | hm
    · obtain ⟨r0, hr0, hre⟩ := List.mem_map.mp hm
      subst hre
      rw [hg, adjustRec_rid]
      have := HF r0 hr0
      omega
    · rw [hC] at hm
      have := createdRecs_rid_lt mn yr _ spend fid r hm
      rw [← hC] at this
      exact this
  have hchar2 := applyAdSpendV3_char T1 (fid + C.length) mn yr spend HP1
    HS1 HI1 HF1 HK
  have hpage1 : periodPage T1 mn yr = T1.filter (inPeriod mn yr) := by
    unfold periodPage
    exact List.take_of_length_le HP1
  have hB2keys : (buildBySource (periodPage T1 mn yr)).map (·.1) =
      (tbl.filter (inPeriod mn yr)).filterMap (·.leadSource) ++
        C.filterMap (·.leadSource) := by
    rw [buildBySource_keys _ (by rw [hpage1]; exact HS1), hpage1,
      hT1filter, List.filterMap_append, hlsmap]
  have hcovered : ∀ p ∈ spend, 0 < p.2 →
      getEntry (buildBySource (periodPage T1 mn yr)) p.1 ≠ none := by
    intro p hp hpos hnone
    have hkey : p.1 ∈ (buildBySource (periodPage T1 mn yr)).map (·.1) := by
      rw [hB2keys]
      match hcase : getEntry (buildBySource (periodPage tbl mn yr)) p.1 with
      | none =>
        obtain ⟨c, hc, hcls⟩ :=
          createdRecs_key_mem mn yr _ spend fid p.1 p.2 hp hpos hcase HK
        refine List.mem_append.mpr (Or.inr ?_)
        refine List.mem_filterMap.mpr ⟨c, ?_, hcls⟩
        rw [hC]
        exact hc
      | some v =>
        have hmem : p.1 ∈ (buildBySource (periodPage tbl mn yr)).map
            (·.1) :=
          List.mem_map.mpr ⟨(p.1, v), getEntry_mem _ _ _ hcase, rfl⟩
        rw [hBkeys] at hmem
        exact List.mem_append.mpr (Or.inl hmem)
    obtain ⟨v, hv⟩ := getEntry_isSome_of_key_mem _ _ hkey
    rw [hv] at hnone
    simp at hnone
  have hC2nil : createdRecs mn yr (buildBySource (periodPage T1 mn yr))
      spend (fid + C.length) = [] :=
    createdRecs_nil_of_covered mn yr _ spend _ hcovered
  have hT1map : T1.map (adjustRec mn yr spend) = T1 := by
    refine map_self _ _ ?_
    intro r hr1
    rw [hT1] at hr1
    rcases List.mem_append.mp hr1 with hm | hm
    · obtain ⟨r0, hr0, hre⟩ := List.mem_map.mp hm
      subst hre
      exact adjustRec_idem mn yr spend r0
    · obtain ⟨k, a, hkmem, hpos, _, hmn, hyrr, hcls, _, hcsp, _⟩ :=
        hCmem r hm
      have hper : inPeriod mn yr r = true := by
        unfold inPeriod
        rw [hmn, hyrr]
        simp
      rw [adjustRec_in mn yr spend r hper]
      have ht : targetSpend spend r.leadSource r.adSpend = r.adSpend := by
        rw [hcls, hcsp]
        exact targetSpend_some_pos spend k a a
          (getEntry_of_mem_nodup spend k a HK hkmem) hpos
      rw [ht]
  calc (applyAdSpendV3 T1 (fid + C.length) mn yr spend).1
      = T1.map (adjustRec mn yr spend) ++
        createdRecs mn yr (buildBySource (periodPage T1 mn yr)) spend
          (fid + C.length) := by rw [hchar2]
    _ = T1 ++ [] := by rw [hT1map, hC2nil]
    _ = T1 := by simp

/-- C4: the ad-spend refresh is idempotent - running the v3 refresh twice
in a row with identical input (the second run starting from the state the
first produced) yields the same final table as running it once - and a
period record whose source has positive input spend holds exactly the
input value afterwards: stored ad spend is replaced wholesale, never added
to the existing value. Hypotheses: unique record ids, unique lead sources
within the period, fresh ids above existing ones, unique input keys
(automatic for `Object.entries`), and room in the 100-record page for the
records the first run may create. -/
theorem adSpend_refresh_idempotent (tbl : List SummaryRec) (fid : Nat)
    (mn yr : String) (spend : List (String × ℚ))
    (HP2 : (tbl.filter (inPeriod mn yr)).length + spend.length ≤ 100)
    (HS : ((tbl.filter (inPeriod mn yr)).filterMap (·.leadSource)).Nodup)
    (HI : (tbl.map (·.rid)).Nodup)
    (HF : ∀ r ∈ tbl, r.rid < fid)
    (HK : (spend.map (·.1)).Nodup) :
    (applyAdSpendV3 (applyAdSpendV3 tbl fid mn yr spend).1
        (applyAdSpendV3 tbl fid mn yr spend).2 mn yr spend).1 =
      (applyAdSpendV3 tbl fid mn yr spend).1 ∧
      (∀ r ∈ (applyAdSpendV3 tbl fid mn yr spend).1,
        inPeriod mn yr r = true →
        ∀ ls a, r.leadSource = some ls → getEntry spend ls = some a →
        0 < a → r.adSpend = a) := by
  refine ⟨applyAdSpendV3_twice_eq tbl fid mn yr spend HP2 HS HI HF HK, ?_⟩
  have HP : (tbl.filter (inPeriod mn yr)).length ≤ 100 := by omega
  intro r hrout hper ls a hls hget hpos
  rw [applyAdSpendV3_char tbl fid mn yr spend HP HS HI HF HK] at hrout
  rcases List.mem_append.mp hrout with hmap | hcr
  · obtain ⟨r0, hr0, hre⟩ := List.mem_map.mp hmap
    by_cases hper0 : inPeriod mn yr r0 = true
    · rw [adjustRec_in mn yr spend r0 hper0] at hre
      subst hre
      have hls0 : r0.leadSource = some ls := hls
      show targetSpend spend r0.leadSource r0.adSpend = a
      rw [hls0]
      exact targetSpend_some_pos spend ls a r0.adSpend hget hpos
    · rw [adjustRec_out mn yr spend r0 hper0] at hre
      subst hre
      exact absurd hper hper0
  · obtain ⟨k, a2, hkmem, _, _, _, _, hcls, _, hcsp, _⟩ :=
      createdRecs_mem mn yr _ spend fid r hcr
    rw [hcls] at hls
    obtain rfl := Option.some.inj hls
    have hget2 : getEntry spend k = some a2 :=
      getEntry_of_mem_nodup spend k a2 HK hkmem
    rw [hget] at hget2
    obtain rfl := Option.some.inj hget2
    exact hcsp

/-- Witness for C4: the refresh applied twice to an empty table with the
single input category `A = 100`. -/
theorem adSpend_refresh_idempotent_witness :
    ((([] : List SummaryRec).filter (inPeriod "June" "2025")).length +
        ([("A", (100 : ℚ))] : List (String × ℚ)).length ≤ 100 ∧
      ((([] : List SummaryRec).filter
        (inPeriod "June" "2025")).filterMap (·.leadSource)).Nodup ∧
      (([] : List SummaryRec).map (·.rid)).Nodup ∧
      (∀ r ∈ ([] : List SummaryRec), r.rid < 0) ∧
      (([("A", (100 : ℚ))] : List (String × ℚ)).map (·.1)).Nodup) ∧
      ((applyAdSpendV3 (applyAdSpendV3 [] 0 "June" "2025" [("A", 100)]).1
          (applyAdSpendV3 [] 0 "June" "2025" [("A", 100)]).2 "June" "2025"
          [("A", 100)]).1 =
        (applyAdSpendV3 [] 0 "June" "2025" [("A", 100)]).1 ∧
        (∀ r ∈ (applyAdSpendV3 [] 0 "June" "2025" [("A", 100)]).1,
          inPeriod "June" "2025" r = true →
          ∀ ls a, r.leadSource = some ls →
          getEntry [("A", (100 : ℚ))] ls = some a → 0 < a →
          r.adSpend = a)) :=
  ⟨⟨by decide, by decide, by decide, by decide, by decide⟩,
   adSpend_refresh_idempotent [] 0 "June" "2025" [("A", 100)] (by decide)
     (by decide) (by decide) (by decide) (by decide)⟩

/-- Witness for C5: the spec scenario - after `{A: 100}` and then `{}`,
category A's stored spend is 0; the zeroing theorem applied to the state
after the first run, plus a direct evaluation of the final table. -/
theorem adSpend_refresh_zeroing_witness :
    ((afterFirstRun.filter (inPeriod "June" "2025")).length ≤ 100 ∧
      ((afterFirstRun.filter
        (inPeriod "June" "2025")).filterMap (·.leadSource)).Nodup ∧
      (afterFirstRun.map (·.rid)).Nodup ∧
      (∀ r ∈ afterFirstRun, r.rid < 1) ∧
      (([] : List (String × ℚ)).map (·.1)).Nodup) ∧
      (∀ r ∈ (applyAdSpendV3 afterFirstRun 1 "June" "2025" []).1,
        inPeriod "June" "2025" r = true →
        ∀ ls, r.leadSource = some ls →
        (getEntry ([] : List (String × ℚ)) ls = none ∨
          getEntry ([] : List (String × ℚ)) ls = some 0) →
        r.adSpend = 0) ∧
      (applyAdSpendV3 afterFirstRun 1 "June" "2025" []).1 =
        [⟨0, "June", "2025", some "A", 0, 0⟩] :=
  ⟨⟨by decide, by decide, by decide, by decide, by decide⟩,
   adSpend_refresh_zeroing afterFirstRun 1 "June" "2025" [] (by decide)
     (by decide) (by decide) (by decide) (by decide),
   by decide⟩

end LeadTracker
